import Mathlib

/-!
Verification development for the CarrierWatch identity-resolution and
risk-scoring pipeline.  The Python/SQL pipeline modules
(`cluster_officers.py`, `detect_chameleons.py`, `detect_fraud_rings.py`,
`apply_risk_flags.py`) are shallowly embedded as executable Lean
definitions; dictionaries become insertion-ordered association lists,
SQL updates become list maps, and the chunked `LIMIT`-loop updates are
modelled by their fixpoint (the loop runs until no candidate remains,
and no rule's candidacy depends on another row's score/flags).
-/

namespace CarrierWatch

/-- First-occurrence deduplication, matching Python `dict`/`set` key
insertion semantics (a duplicate key keeps its first position). -/
def dedupFirstGo {α : Type} [DecidableEq α] : List α → List α → List α
  | [], _ => []
  | x :: xs, seen => if x ∈ seen then dedupFirstGo xs seen else x :: dedupFirstGo xs (x :: seen)

def dedupFirst {α : Type} [DecidableEq α] (l : List α) : List α :=
  dedupFirstGo l []

/-- Stable insertion into an already-built list: `x` goes after every
element `y` with `le y x` true (Python `sorted` is stable). -/
def stableInsert {α : Type} (le : α → α → Bool) (x : α) : List α → List α
  | [] => [x]
  | y :: ys => if le y x then y :: stableInsert le x ys else x :: y :: ys

/-- Stable sort, modelling Python `sorted`. -/
def pySort {α : Type} (le : α → α → Bool) (l : List α) : List α :=
  l.foldl (fun acc x => stableInsert le x acc) []

/-- Insertion-ordered bucket map, modelling `defaultdict(list)`:
appending to an existing key extends its bucket in place, a new key is
appended at the end. -/
def bucketAdd {α β : Type} [DecidableEq α] (groups : List (α × List β)) (k : α) (e : β) :
    List (α × List β) :=
  match groups with
  | [] => [(k, [e])]
  | (k2, ms) :: rest =>
      if k2 = k then (k2, ms ++ [e]) :: rest else (k2, ms) :: bucketAdd rest k e

/-- Set-valued insertion (Python `set.add`): append only if absent. -/
def sigAdd (sigs : List String) (s : String) : List String :=
  if s ∈ sigs then sigs else sigs ++ [s]

/-- `hay.startswith(needle)` on character lists (kernel-reducible stand-in
for `String.startsWith`). -/
def listStartsWith : List Char → List Char → Bool
  | _, [] => true
  | [], _ :: _ => false
  | h :: hs, n :: ns => h == n && listStartsWith hs ns

/-- `defaultdict(set)` keyed by carrier pair: add one signal to a pair,
creating the entry if it does not exist. -/
def pairAdd (ps : List ((Nat × Nat) × List String)) (key : Nat × Nat) (s : String) :
    List ((Nat × Nat) × List String) :=
  match ps with
  | [] => [(key, [s])]
  | (k, sigs) :: rest =>
      if k = key then (k, sigAdd sigs s) :: rest else (k, sigs) :: pairAdd rest key s

/-- All index pairs `i < j` of a list, in Python's nested-loop order
(`for i in range(n): for j in range(i+1, n)`), uncapped. -/
def ijPairs : List Nat → List (Nat × Nat)
  | [] => []
  | d :: rest => rest.map (fun e => (d, e)) ++ ijPairs rest

/-!  ## Union-find (`cluster_officers.py`, class `UnionFind`)

The Python class keeps `parent`/`rank` dicts keyed by the initial
element list.  `find` and `union` never insert keys, so the key set is
fixed at construction; we keep it as `elems` (first occurrences, in
insertion order) and model the dicts as total functions. -/

structure UnionFind where
  elems : List Nat
  parent : Nat → Nat
  rank : Nat → Nat

def ufInit (elements : List Nat) : UnionFind :=
  { elems := dedupFirst elements, parent := fun e => e, rank := fun _ => 0 }

/-- `UnionFind.find` with path halving
(`parent[x] = parent[parent[x]]; x = parent[x]`), fuelled: callers pass
the element count, enough for any chain inside the key set. -/
def ufFind : Nat → (Nat → Nat) → Nat → Nat × (Nat → Nat)
  | 0, p, x => (x, p)
  | fuel + 1, p, x =>
      if p x = x then (x, p)
      else
        let ppx := p (p x)
        ufFind fuel (fun y => if y = x then ppx else p y) ppx

/-- `UnionFind.union` (union by rank, ties raise the surviving root). -/
def ufUnion (fuel : Nat) (uf : UnionFind) (a b : Nat) : UnionFind :=
  let fa := ufFind fuel uf.parent a
  let fb := ufFind fuel fa.2 b
  if fa.1 = fb.1 then { uf with parent := fb.2 }
  else
    let ra := if uf.rank fa.1 < uf.rank fb.1 then fb.1 else fa.1
    let rb := if uf.rank fa.1 < uf.rank fb.1 then fa.1 else fb.1
    { elems := uf.elems
      parent := fun y => if y = rb then ra else fb.2 y
      rank := if uf.rank ra = uf.rank rb then fun y => if y = ra then uf.rank ra + 1 else uf.rank y
              else uf.rank }

/-- `UnionFind.clusters`: `for e in self.parent: groups[self.find(e)].append(e)`,
threading the parent map through the successive (mutating) `find` calls. -/
def ufClustersGo (fuel : Nat) :
    (Nat → Nat) → List Nat → List (Nat × List Nat) → List (Nat × List Nat)
  | _, [], groups => groups
  | p, e :: rest, groups =>
      let f := ufFind fuel p e
      ufClustersGo fuel f.2 rest (bucketAdd groups f.1 e)

def ufClusters (fuel : Nat) (uf : UnionFind) : List (Nat × List Nat) :=
  ufClustersGo fuel uf.parent uf.elems []

/-!  ## Signal graph builder (`cluster_officers.py`, `find_links`) -/

/-- One joined `carrier_principals × carriers` row as fetched for one
officer name (the aggregate-stat columns, unused by linkage, are
omitted). -/
structure PrincipalRow where
  dot_number : Nat
  phone : Option String
  email : Option String
  address_hash : Option String
  physical_state : Option String
deriving DecidableEq

/-- `a, b = min(i,j), max(i,j)` pair normalisation. -/
def pairKey (x y : Nat) : Nat × Nat := (min x y, max x y)

/-- Add one signal for every `i < j` pair of a signal group
(`if len(dots) < 2: continue` is subsumed: a short list yields no pairs). -/
def addGroupPairs (ps : List ((Nat × Nat) × List String)) (signal : String)
    (dots : List Nat) : List ((Nat × Nat) × List String) :=
  (ijPairs dots).foldl (fun acc ij => pairAdd acc (pairKey ij.1 ij.2) signal) ps

def phoneGroups (carriers : List PrincipalRow) : List (String × List Nat) :=
  carriers.foldl
    (fun g c =>
      match c.phone with
      | some p => if p.length ≥ 7 then bucketAdd g p c.dot_number else g
      | none => g)
    []

def emailGroups (carriers : List PrincipalRow) : List (String × List Nat) :=
  carriers.foldl
    (fun g c =>
      match c.email with
      | some e =>
          if e.data.contains '@' then
            bucketAdd g (String.mk (e.data.map Char.toLower)) c.dot_number
          else g
      | none => g)
    []

def addressGroups (carriers : List PrincipalRow) : List (String × List Nat) :=
  carriers.foldl
    (fun g c =>
      match c.address_hash with
      | some h => if h ≠ "" then bucketAdd g h c.dot_number else g
      | none => g)
    []

def stateGroups (carriers : List PrincipalRow) : List (String × List Nat) :=
  carriers.foldl
    (fun g c =>
      match c.physical_state with
      | some s => if s ≠ "" then bucketAdd g s c.dot_number else g
      | none => g)
    []

/-- `co_groups`: group this officer's carriers by every *other* officer
name attached to them. -/
def coGroups (coMap : List (Nat × List String)) (officerName : String) :
    List (String × List Nat) :=
  coMap.foldl
    (fun g dm =>
      dm.2.foldl (fun g2 n => if n ≠ officerName then bucketAdd g2 n dm.1 else g2) g)
    []

/-- State overlap is weak: only added to pairs already present. -/
def addStatePairs (ps : List ((Nat × Nat) × List String)) (dots : List Nat) :
    List ((Nat × Nat) × List String) :=
  (ijPairs dots).foldl
    (fun acc ij =>
      let key := pairKey ij.1 ij.2
      if acc.any (fun e => e.1 = key) then pairAdd acc key "same_state" else acc)
    ps

/-- `pair_signals` after the phone/email/address/co-officer passes of
`find_links`, in source order. -/
def strongPairSignals (carriers : List PrincipalRow) (coMap : List (Nat × List String))
    (officerName : String) : List ((Nat × Nat) × List String) :=
  (coGroups coMap officerName).foldl (fun acc g => addGroupPairs acc "co_officer" g.2)
    ((addressGroups carriers).foldl (fun acc g => addGroupPairs acc "address" g.2)
      ((emailGroups carriers).foldl (fun acc g => addGroupPairs acc "email" g.2)
        ((phoneGroups carriers).foldl (fun acc g => addGroupPairs acc "phone" g.2) [])))

/-- `pair_signals` after the final weak same-state pass. -/
def allPairSignals (carriers : List PrincipalRow) (coMap : List (Nat × List String))
    (officerName : String) : List ((Nat × Nat) × List String) :=
  (stateGroups carriers).foldl (fun acc g => addStatePairs acc g.2)
    (strongPairSignals carriers coMap officerName)

/-- `find_links(carriers, co_officer_map, officer_name)`: pairs of this
officer's carriers annotated with the signal sets connecting them. -/
def findLinks (carriers : List PrincipalRow) (coMap : List (Nat × List String))
    (officerName : String) : List (Nat × Nat × List String) :=
  (allPairSignals carriers coMap officerName).map (fun e => (e.1.1, e.1.2, e.2))

/-!  ## Identity cluster resolver (`cluster_officers.py`, `main`) -/

/-- Descending-by-size ordering used on components
(`sorted(..., key=lambda x: -len(x[1]))`, stable). -/
def bySizeDesc (a b : Nat × List Nat) : Bool := decide (b.2.length ≤ a.2.length)

/-- The union-find state after seeding every carrier of the officer as
a singleton and unioning the two carriers of every `find_links` pair. -/
def officerUnionFind (carriers : List PrincipalRow) (coMap : List (Nat × List String))
    (officerName : String) : UnionFind :=
  let uf0 := ufInit (carriers.map (·.dot_number))
  (findLinks carriers coMap officerName).foldl
    (fun u l => ufUnion uf0.elems.length u l.1 l.2.1) uf0

/-- The member partition one officer name resolves to: each component's
member list is emitted sorted, components ordered by descending size. -/
def resolveOfficer (carriers : List PrincipalRow) (coMap : List (Nat × List String))
    (officerName : String) : List (List Nat) :=
  (pySort bySizeDesc
      (ufClusters (officerUnionFind carriers coMap officerName).elems.length
        (officerUnionFind carriers coMap officerName))).map
    fun c => pySort (fun a b => decide (a ≤ b)) c.2

/-!  ## Fraud-ring edge builder (`detect_fraud_rings.py`, `build_officer_edges`) -/

/-- The capped pair window: `for i in range(len(dots)): for j in
range(i + 1, min(i + 50, len(dots)))`, i.e. each member is paired with
at most the 49 members following it. -/
def cappedGroupPairs : List Nat → List (Nat × Nat)
  | [] => []
  | d :: rest => ((rest.take 49).map fun e => (d, e)) ++ cappedGroupPairs rest

/-- `f"{officer_name}:{cluster_idx}"` when clusters are available, the
bare name in fallback mode. -/
def identityKey (useClusters : Bool) (name : String) (cidx : Nat) : String :=
  if useClusters then name ++ ":" ++ toString cidx else name

/-- `dots = sorted(set(member_dots))`. -/
def sortedUnique (l : List Nat) : List Nat :=
  pySort (fun a b => decide (a ≤ b)) (dedupFirst l)

/-- `build_officer_edges`: accumulate identity keys per pair over every
group row (`member_dots, officer_name, cluster_idx`), then keep the
strong edges carrying at least `MIN_SHARED_OFFICERS = 2` keys. -/
def buildOfficerEdges (rows : List (List Nat × String × Nat)) (useClusters : Bool) :
    List ((Nat × Nat) × List String) :=
  (rows.foldl
    (fun acc r =>
      if r.1.length < 2 then acc
      else
        (cappedGroupPairs (sortedUnique r.1)).foldl
          (fun a p => pairAdd a p (identityKey useClusters r.2.1 r.2.2)) acc)
    []).filter (fun e => decide (e.2.length ≥ 2))

/-!  ## Helper lemmas -/

theorem mem_dedupFirstGo {α : Type} [DecidableEq α] (l : List α) :
    ∀ seen x, x ∈ dedupFirstGo l seen ↔ x ∈ l ∧ x ∉ seen := by
  induction l with
  | nil => intro seen x; simp [dedupFirstGo]
  | cons a l ih =>
      intro seen x
      by_cases ha : a ∈ seen
      · rw [dedupFirstGo, if_pos ha, ih]
        constructor
        · rintro ⟨hx, hs⟩; exact ⟨List.mem_cons_of_mem _ hx, hs⟩
        · rintro ⟨hx, hs⟩
          rcases List.mem_cons.mp hx with rfl | hx
          · exact absurd ha hs
          · exact ⟨hx, hs⟩
      · rw [dedupFirstGo, if_neg ha]
        constructor
        · intro h
          rcases List.mem_cons.mp h with rfl | h
          · exact ⟨List.mem_cons_self _ _, ha⟩
          · obtain ⟨hx, hs⟩ := (ih _ _).mp h
            exact ⟨List.mem_cons_of_mem _ hx, fun hm => hs (List.mem_cons_of_mem _ hm)⟩
        · rintro ⟨hx, hs⟩
          by_cases hxa : x = a
          · subst hxa; exact List.mem_cons_self _ _
          · have hx2 : x ∈ l := by
              rcases List.mem_cons.mp hx with h | h
              · exact absurd h hxa
              · exact h
            refine List.mem_cons_of_mem _ ((ih _ _).mpr ⟨hx2, fun hm => ?_⟩)
            rcases List.mem_cons.mp hm with h | h
            · exact hxa h
            · exact hs h

theorem nodup_dedupFirstGo {α : Type} [DecidableEq α] (l : List α) :
    ∀ seen, (dedupFirstGo l seen).Nodup := by
  induction l with
  | nil => intro seen; simp [dedupFirstGo]
  | cons a l ih =>
      intro seen
      by_cases ha : a ∈ seen
      · simpa [dedupFirstGo, if_pos ha] using ih seen
      · rw [dedupFirstGo, if_neg ha]
        refine List.Nodup.cons (fun h => ?_) (ih (a :: seen))
        exact ((mem_dedupFirstGo l (a :: seen) a).mp h).2 (List.mem_cons_self a seen)

theorem mem_dedupFirst {α : Type} [DecidableEq α] (l : List α) (x : α) :
    x ∈ dedupFirst l ↔ x ∈ l := by
  simp [dedupFirst, mem_dedupFirstGo]

theorem nodup_dedupFirst {α : Type} [DecidableEq α] (l : List α) :
    (dedupFirst l).Nodup := nodup_dedupFirstGo l []

theorem stableInsert_perm {α : Type} (le : α → α → Bool) (x : α) (l : List α) :
    List.Perm (stableInsert le x l) (x :: l) := by
  induction l with
  | nil => simp [stableInsert]
  | cons y ys ih =>
      rw [stableInsert]
      by_cases h : le y x = true
      · rw [if_pos h]
        exact (ih.cons y).trans (List.Perm.swap x y ys)
      · rw [if_neg h]

theorem pySort_perm {α : Type} (le : α → α → Bool) (l : List α) :
    List.Perm (pySort le l) l := by
  suffices h : ∀ acc : List α,
      List.Perm (l.foldl (fun a x => stableInsert le x a) acc) (acc ++ l) by
    simpa using h []
  induction l with
  | nil => intro acc; simp
  | cons x xs ih =>
      intro acc
      have h1 := ih (stableInsert le x acc)
      have h2 : List.Perm (stableInsert le x acc ++ xs) ((x :: acc) ++ xs) :=
        (stableInsert_perm le x acc).append_right xs
      have h3 : List.Perm ((x :: acc) ++ xs) (acc ++ x :: xs) := List.perm_middle.symm
      exact (h1.trans h2).trans h3

theorem mem_pySort {α : Type} (le : α → α → Bool) (l : List α) (x : α) :
    x ∈ pySort le l ↔ x ∈ l := (pySort_perm le l).mem_iff

/-- Flattened member lists of a bucket map. -/
def groupMembers (gs : List (Nat × List Nat)) : List Nat :=
  gs.foldr (fun g acc => g.2 ++ acc) []

theorem groupMembers_cons (g : Nat × List Nat) (gs : List (Nat × List Nat)) :
    groupMembers (g :: gs) = g.2 ++ groupMembers gs := rfl

theorem mem_groupMembers (gs : List (Nat × List Nat)) (x : Nat) :
    x ∈ groupMembers gs ↔ ∃ g ∈ gs, x ∈ g.2 := by
  induction gs with
  | nil => simp [groupMembers]
  | cons g gs ih => simp [groupMembers_cons, ih]

theorem count_groupMembers_bucketAdd (gs : List (Nat × List Nat)) (k e x : Nat) :
    (groupMembers (bucketAdd gs k e)).count x
      = (groupMembers gs).count x + (if x = e then 1 else 0) := by
  induction gs with
  | nil =>
      simp only [bucketAdd, groupMembers_cons, groupMembers]
      by_cases h : x = e <;> simp [h, List.count_cons]
      try omega
  | cons g gs ih =>
      rcases g with ⟨k2, ms⟩
      rw [bucketAdd]
      by_cases h : k2 = k
      · rw [if_pos h]
        simp only [groupMembers_cons, List.count_append]
        by_cases hx : x = e
        · simp [hx, List.count_append, List.count_cons]
          omega
        · simp [hx, List.count_append, List.count_cons]
      · rw [if_neg h]
        simp only [groupMembers_cons, List.count_append, ih]
        omega

theorem count_groupMembers_ufClustersGo (fuel : Nat) (elems : List Nat) :
    ∀ (p : Nat → Nat) (gs : List (Nat × List Nat)) (x : Nat),
      (groupMembers (ufClustersGo fuel p elems gs)).count x
        = (groupMembers gs).count x + elems.count x := by
  induction elems with
  | nil => intro p gs x; simp [ufClustersGo]
  | cons e rest ih =>
      intro p gs x
      rw [ufClustersGo]
      rw [ih, count_groupMembers_bucketAdd, List.count_cons]
      by_cases h : x = e <;> simp [h] <;> omega

theorem groupMembers_ufClusters_perm (fuel : Nat) (uf : UnionFind) :
    List.Perm (groupMembers (ufClusters fuel uf)) uf.elems := by
  rw [List.perm_iff_count]
  intro x
  have h := count_groupMembers_ufClustersGo fuel uf.elems uf.parent [] x
  simpa [ufClusters, groupMembers] using h

/-- A flat-nodup bucket list has pairwise-disjoint buckets. -/
theorem pairwise_disjoint_of_nodup_groupMembers (gs : List (Nat × List Nat))
    (h : (groupMembers gs).Nodup) :
    gs.Pairwise (fun g h2 => ∀ x ∈ g.2, x ∉ h2.2) := by
  induction gs with
  | nil => exact List.Pairwise.nil
  | cons g gs ih =>
      rw [groupMembers_cons, List.nodup_append] at h
      obtain ⟨hg, hgs, hdisj⟩ := h
      refine List.Pairwise.cons (fun g2 hg2 x hxg hxg2 => ?_) (ih hgs)
      exact hdisj hxg ((mem_groupMembers gs x).mpr ⟨g2, hg2, hxg2⟩)

theorem ufUnion_elems (fuel : Nat) (uf : UnionFind) (a b : Nat) :
    (ufUnion fuel uf a b).elems = uf.elems := by
  rw [ufUnion]
  split <;> rfl

theorem foldl_ufUnion_elems (fuel : Nat) (links : List (Nat × Nat × List String)) :
    ∀ uf : UnionFind,
      (links.foldl (fun u l => ufUnion fuel u l.1 l.2.1) uf).elems = uf.elems := by
  induction links with
  | nil => intro uf; rfl
  | cons l ls ih => intro uf; rw [List.foldl_cons, ih, ufUnion_elems]

theorem officerUnionFind_elems (carriers : List PrincipalRow)
    (coMap : List (Nat × List String)) (officerName : String) :
    (officerUnionFind carriers coMap officerName).elems
      = dedupFirst (carriers.map (·.dot_number)) := by
  simp only [officerUnionFind]
  rw [foldl_ufUnion_elems]
  rfl

/-- C2.  For every officer name, the member sets of the produced
identity clusters are pairwise disjoint and their union is the full set
of the officer's affiliated carrier IDs. -/
theorem resolveOfficer_partition (carriers : List PrincipalRow)
    (coMap : List (Nat × List String)) (officerName : String) :
    ((resolveOfficer carriers coMap officerName).Pairwise
        fun g h => ∀ x ∈ g, x ∉ h)
    ∧ ∀ x, (∃ g ∈ resolveOfficer carriers coMap officerName, x ∈ g)
        ↔ x ∈ carriers.map (·.dot_number) := by
  have helems := officerUnionFind_elems carriers coMap officerName
  have hperm := groupMembers_ufClusters_perm
    (officerUnionFind carriers coMap officerName).elems.length
    (officerUnionFind carriers coMap officerName)
  have hnodup : (groupMembers (ufClusters
      (officerUnionFind carriers coMap officerName).elems.length
      (officerUnionFind carriers coMap officerName))).Nodup := by
    rw [hperm.nodup_iff, helems]
    exact nodup_dedupFirst _
  have hdisj := pairwise_disjoint_of_nodup_groupMembers _ hnodup
  constructor
  · simp only [resolveOfficer]
    rw [List.pairwise_map]
    have hsym : ∀ a b : Nat × List Nat,
        (∀ x ∈ pySort (fun a b => decide (a ≤ b)) a.2,
          x ∉ pySort (fun a b => decide (a ≤ b)) b.2)
        → ∀ x ∈ pySort (fun a b => decide (a ≤ b)) b.2,
          x ∉ pySort (fun a b => decide (a ≤ b)) a.2 := by
      intro a b hab x hxb hxa
      exact hab x hxa hxb
    rw [(pySort_perm bySizeDesc _).pairwise_iff (fun h => hsym _ _ h)]
    refine hdisj.imp ?_
    intro a b hab x hxa hxb
    exact hab x ((mem_pySort _ _ _).mp hxa) ((mem_pySort _ _ _).mp hxb)
  · intro x
    simp only [resolveOfficer]
    constructor
    · rintro ⟨g, hg, hxg⟩
      obtain ⟨c, hc, rfl⟩ := List.mem_map.mp hg
      have hcgs := (mem_pySort bySizeDesc _ _).mp hc
      have hx2 := (mem_pySort _ _ _).mp hxg
      have : x ∈ groupMembers (ufClusters
          (officerUnionFind carriers coMap officerName).elems.length
          (officerUnionFind carriers coMap officerName)) :=
        (mem_groupMembers _ _).mpr ⟨c, hcgs, hx2⟩
      have := hperm.mem_iff.mp this
      rw [helems, mem_dedupFirst] at this
      exact this
    · intro hx
      have hx2 : x ∈ groupMembers (ufClusters
          (officerUnionFind carriers coMap officerName).elems.length
          (officerUnionFind carriers coMap officerName)) := by
        apply hperm.mem_iff.mpr
        rw [helems, mem_dedupFirst]
        exact hx
      obtain ⟨c, hc, hxc⟩ := (mem_groupMembers _ _).mp hx2
      exact ⟨pySort (fun a b => decide (a ≤ b)) c.2,
        List.mem_map_of_mem _ ((mem_pySort bySizeDesc _ _).mpr hc),
        (mem_pySort _ _ _).mpr hxc⟩

/-!  ## The weak same-state signal (C9) -/

/-- The four signal types that can create a link on their own. -/
def strongSignals : List String := ["phone", "email", "address", "co_officer"]

/-- A signal set containing at least one link-creating signal type. -/
def hasStrong (sigs : List String) : Prop := ∃ x ∈ sigs, x ∈ strongSignals

theorem mem_sigAdd (sigs : List String) (s x : String) :
    x ∈ sigAdd sigs s ↔ x ∈ sigs ∨ x = s := by
  rw [sigAdd]
  by_cases h : s ∈ sigs
  · rw [if_pos h]
    constructor
    · exact Or.inl
    · rintro (hx | rfl)
      · exact hx
      · exact h
  · rw [if_neg h]
    simp

theorem hasStrong_sigAdd (sigs : List String) (s : String) (h : hasStrong sigs) :
    hasStrong (sigAdd sigs s) := by
  obtain ⟨x, hx, hxs⟩ := h
  exact ⟨x, (mem_sigAdd sigs s x).mpr (Or.inl hx), hxs⟩

theorem mem_pairAdd_cases (key : Nat × Nat) (s : String) :
    ∀ ps : List ((Nat × Nat) × List String), ∀ e ∈ pairAdd ps key s,
      e ∈ ps ∨ (∃ e0 ∈ ps, e0.1 = key ∧ e = (key, sigAdd e0.2 s)) ∨ e = (key, [s]) := by
  intro ps
  induction ps with
  | nil =>
      intro e he
      rw [pairAdd] at he
      exact Or.inr (Or.inr (List.mem_singleton.mp he))
  | cons p rest ih =>
      rcases p with ⟨k, sigs⟩
      intro e he
      rw [pairAdd] at he
      by_cases h : k = key
      · rw [if_pos h] at he
        rcases List.mem_cons.mp he with rfl | he2
        · subst h
          exact Or.inr (Or.inl ⟨(k, sigs), List.mem_cons_self _ _, rfl, rfl⟩)
        · exact Or.inl (List.mem_cons_of_mem _ he2)
      · rw [if_neg h] at he
        rcases List.mem_cons.mp he with rfl | he2
        · exact Or.inl (List.mem_cons_self _ _)
        · rcases ih e he2 with h1 | h2 | h3
          · exact Or.inl (List.mem_cons_of_mem _ h1)
          · obtain ⟨e0, he0, hk, hee⟩ := h2
            exact Or.inr (Or.inl ⟨e0, List.mem_cons_of_mem _ he0, hk, hee⟩)
          · exact Or.inr (Or.inr h3)

theorem mem_pairAdd_present (key : Nat × Nat) (s : String) :
    ∀ ps : List ((Nat × Nat) × List String), (∃ e0 ∈ ps, e0.1 = key) →
      ∀ e ∈ pairAdd ps key s, e ∈ ps ∨ ∃ e0 ∈ ps, e = (key, sigAdd e0.2 s) := by
  intro ps
  induction ps with
  | nil =>
      rintro ⟨e0, he0, _⟩
      exact absurd he0 (List.not_mem_nil e0)
  | cons p rest ih =>
      rcases p with ⟨k, sigs⟩
      intro hp e he
      rw [pairAdd] at he
      by_cases h : k = key
      · rw [if_pos h] at he
        rcases List.mem_cons.mp he with rfl | he2
        · subst h
          exact Or.inr ⟨(k, sigs), List.mem_cons_self _ _, rfl⟩
        · exact Or.inl (List.mem_cons_of_mem _ he2)
      · rw [if_neg h] at he
        rcases List.mem_cons.mp he with rfl | he2
        · exact Or.inl (List.mem_cons_self _ _)
        · have hp2 : ∃ e0 ∈ rest, e0.1 = key := by
            obtain ⟨e0, he0, hk0⟩ := hp
            rcases List.mem_cons.mp he0 with rfl | he02
            · exact absurd hk0 h
            · exact ⟨e0, he02, hk0⟩
          rcases ih hp2 e he2 with h1 | h2
          · exact Or.inl (List.mem_cons_of_mem _ h1)
          · obtain ⟨e0, he0, hee⟩ := h2
            exact Or.inr ⟨e0, List.mem_cons_of_mem _ he0, hee⟩

/-- `pairAdd` with a strong signal keeps every entry strong. -/
theorem pairAdd_strong (key : Nat × Nat) (s : String) (hs : s ∈ strongSignals)
    (ps : List ((Nat × Nat) × List String)) (h : ∀ e ∈ ps, hasStrong e.2) :
    ∀ e ∈ pairAdd ps key s, hasStrong e.2 := by
  intro e he
  rcases mem_pairAdd_cases key s ps e he with h1 | h2 | h3
  · exact h e h1
  · obtain ⟨e0, he0, _, rfl⟩ := h2
    exact hasStrong_sigAdd _ _ (h e0 he0)
  · subst h3
    exact ⟨s, List.mem_singleton_self s, hs⟩

theorem foldl_preserve {α β : Type} (P : α → Prop) (f : α → β → α) (l : List β)
    (hf : ∀ a b, P a → P (f a b)) : ∀ a, P a → P (l.foldl f a) := by
  induction l with
  | nil => intro a h; exact h
  | cons x xs ih => intro a h; exact ih _ (hf a x h)

theorem addGroupPairs_strong (s : String) (hs : s ∈ strongSignals) (dots : List Nat)
    (ps : List ((Nat × Nat) × List String)) (h : ∀ e ∈ ps, hasStrong e.2) :
    ∀ e ∈ addGroupPairs ps s dots, hasStrong e.2 := by
  rw [addGroupPairs]
  exact foldl_preserve (fun acc => ∀ e ∈ acc, hasStrong e.2) _ _
    (fun a ij ha => pairAdd_strong _ s hs a ha) ps h

theorem addStatePairs_strong (dots : List Nat)
    (ps : List ((Nat × Nat) × List String)) (h : ∀ e ∈ ps, hasStrong e.2) :
    ∀ e ∈ addStatePairs ps dots, hasStrong e.2 := by
  rw [addStatePairs]
  refine foldl_preserve (fun acc => ∀ e ∈ acc, hasStrong e.2) _ _ ?_ ps h
  intro acc ij ha
  dsimp only
  by_cases hany : acc.any (fun e => decide (e.1 = pairKey ij.1 ij.2)) = true
  · rw [if_pos hany]
    obtain ⟨e0, he0, hk0⟩ := List.any_eq_true.mp hany
    intro e he
    rcases mem_pairAdd_present _ _ acc ⟨e0, he0, of_decide_eq_true hk0⟩ e he with h1 | h2
    · exact ha e h1
    · obtain ⟨e1, he1, rfl⟩ := h2
      exact hasStrong_sigAdd _ _ (ha e1 he1)
  · rw [if_neg hany]
    exact ha

theorem allPairSignals_strong (carriers : List PrincipalRow)
    (coMap : List (Nat × List String)) (officerName : String) :
    ∀ e ∈ allPairSignals carriers coMap officerName, hasStrong e.2 := by
  have base : ∀ e ∈ ([] : List ((Nat × Nat) × List String)), hasStrong e.2 := by
    intro e he; exact absurd he (List.not_mem_nil e)
  have h1 := foldl_preserve (fun acc => ∀ e ∈ acc, hasStrong e.2)
    (fun acc g => addGroupPairs acc "phone" g.2) (phoneGroups carriers)
    (fun a g ha => addGroupPairs_strong "phone" (by decide) g.2 a ha) [] base
  have h2 := foldl_preserve (fun acc => ∀ e ∈ acc, hasStrong e.2)
    (fun acc g => addGroupPairs acc "email" g.2) (emailGroups carriers)
    (fun a g ha => addGroupPairs_strong "email" (by decide) g.2 a ha) _ h1
  have h3 := foldl_preserve (fun acc => ∀ e ∈ acc, hasStrong e.2)
    (fun acc g => addGroupPairs acc "address" g.2) (addressGroups carriers)
    (fun a g ha => addGroupPairs_strong "address" (by decide) g.2 a ha) _ h2
  have h4 := foldl_preserve (fun acc => ∀ e ∈ acc, hasStrong e.2)
    (fun acc g => addGroupPairs acc "co_officer" g.2) (coGroups coMap officerName)
    (fun a g ha => addGroupPairs_strong "co_officer" (by decide) g.2 a ha) _ h3
  have h5 := foldl_preserve (fun acc => ∀ e ∈ acc, hasStrong e.2)
    (fun acc g => addStatePairs acc g.2) (stateGroups carriers)
    (fun a g ha => addStatePairs_strong g.2 a ha) _ h4
  exact h5

/-- C9.  In `find_links` output, `same_state` never stands alone: every
returned pair carries at least one of the phone/email/address/co_officer
signals, so no pair's signal set is exactly the singleton same-state
set and sharing a state alone never creates a pair. -/
theorem findLinks_same_state_weak (carriers : List PrincipalRow)
    (coMap : List (Nat × List String)) (officerName : String) :
    ∀ t ∈ findLinks carriers coMap officerName,
      (∃ s ∈ t.2.2, s ∈ strongSignals) ∧ t.2.2 ≠ ["same_state"] := by
  intro t ht
  simp only [findLinks] at ht
  obtain ⟨e, he, rfl⟩ := List.mem_map.mp ht
  have hstrong := allPairSignals_strong carriers coMap officerName e he
  refine ⟨hstrong, fun hbad => ?_⟩
  obtain ⟨s, hsmem, hss⟩ := hstrong
  rw [show (e.1.1, e.1.2, e.2).2.2 = e.2 from rfl] at hbad
  rw [hbad] at hsmem
  rcases List.mem_singleton.mp hsmem with rfl
  exact absurd hss (by decide)

/-- Three carriers in one state, two of them sharing one phone: the
fixture exercising the weak same-state rule. -/
def stateDemoCarriers : List PrincipalRow :=
  [{ dot_number := 1, phone := some "5551234", email := none, address_hash := none,
     physical_state := some "TX" },
   { dot_number := 2, phone := some "5551234", email := none, address_hash := none,
     physical_state := some "TX" },
   { dot_number := 3, phone := none, email := none, address_hash := none,
     physical_state := some "TX" }]

theorem findLinks_same_state_weak_witness :
    (∃ s ∈ ((1, 2, ["phone", "same_state"]) : Nat × Nat × List String).2.2,
        s ∈ strongSignals)
    ∧ ((1, 2, ["phone", "same_state"]) : Nat × Nat × List String).2.2 ≠ ["same_state"] :=
  findLinks_same_state_weak stateDemoCarriers [] "X" (1, 2, ["phone", "same_state"])
    (by decide)

/-!  ## Pair-generation caps (C5)

`build_officer_edges` caps the inner pair loop
(`for j in range(i + 1, min(i + 50, len(dots)))`); `find_links` does
not cap its loops at all. -/

theorem cappedGroupPairs_left_mem :
    ∀ dots : List Nat, ∀ p ∈ cappedGroupPairs dots, p.1 ∈ dots := by
  intro dots
  induction dots with
  | nil => intro p hp; exact absurd hp (List.not_mem_nil p)
  | cons d rest ih =>
      intro p hp
      rw [cappedGroupPairs] at hp
      rcases List.mem_append.mp hp with h | h
      · obtain ⟨e, _, rfl⟩ := List.mem_map.mp h
        exact List.mem_cons_self _ _
      · exact List.mem_cons_of_mem _ (ih p h)

theorem cappedGroupPairs_partner_bound (d : Nat) :
    ∀ dots : List Nat, dots.Nodup →
      ((cappedGroupPairs dots).countP fun p => decide (p.1 = d)) ≤ 49 := by
  intro dots
  induction dots with
  | nil => intro _; simp [cappedGroupPairs]
  | cons d0 rest ih =>
      intro hnd
      obtain ⟨hd0, hrest⟩ := List.nodup_cons.mp hnd
      rw [cappedGroupPairs, List.countP_append]
      by_cases h : d0 = d
      · subst h
        have hzero : ((cappedGroupPairs rest).countP fun p => decide (p.1 = d0)) = 0 := by
          rw [List.countP_eq_zero]
          intro p hp hpe
          exact hd0 ((of_decide_eq_true hpe) ▸ cappedGroupPairs_left_mem rest p hp)
        have hmap : (((rest.take 49).map fun e => (d0, e)).countP
            fun p => decide (p.1 = d0)) ≤ 49 := by
          calc (((rest.take 49).map fun e => (d0, e)).countP fun p => decide (p.1 = d0))
              ≤ ((rest.take 49).map fun e => (d0, e)).length := List.countP_le_length _
            _ = (rest.take 49).length := List.length_map _ _
            _ ≤ 49 := List.length_take_le _ _
        omega
      · have hzero : (((rest.take 49).map fun e => (d0, e)).countP
            fun p => decide (p.1 = d)) = 0 := by
          rw [List.countP_eq_zero]
          intro p hp hpe
          obtain ⟨e, _, rfl⟩ := List.mem_map.mp hp
          exact h (of_decide_eq_true hpe)
        rw [hzero]
        simpa using ih hrest

theorem sortedUnique_nodup (l : List Nat) : (sortedUnique l).Nodup := by
  rw [sortedUnique]
  exact (pySort_perm _ _).nodup_iff.mpr (nodup_dedupFirst l)

/-- C5 (amended, the half the code satisfies).  In the Fraud Ring
Detector's edge builder, within one identity group processed over
`dots = sorted(set(member_dots))`, each member appears as the left
element of at most 49 generated pairs: the window cap bounds the
partners considered per member. -/
theorem buildOfficerEdges_group_cap (memberDots : List Nat) (d : Nat) :
    ((cappedGroupPairs (sortedUnique memberDots)).countP fun p => decide (p.1 = d)) ≤ 49 :=
  cappedGroupPairs_partner_bound d _ (sortedUnique_nodup memberDots)

/-- If the key is not yet present, `pairAdd` appends a fresh entry. -/
theorem pairAdd_absent (key : Nat × Nat) (s : String) :
    ∀ ps : List ((Nat × Nat) × List String), (∀ e ∈ ps, e.1 ≠ key) →
      pairAdd ps key s = ps ++ [(key, [s])] := by
  intro ps
  induction ps with
  | nil => intro _; rfl
  | cons p rest ih =>
      rcases p with ⟨k, sigs⟩
      intro habs
      rw [pairAdd, if_neg (habs (k, sigs) (List.mem_cons_self _ _)), ih]
      · rfl
      · intro e he; exact habs e (List.mem_cons_of_mem _ he)

theorem foldl_pairAdd_nodup (s : String) :
    ∀ (ks : List (Nat × Nat)) (ps : List ((Nat × Nat) × List String)),
      (∀ k ∈ ks, ∀ e ∈ ps, e.1 ≠ k) → ks.Nodup →
      ks.foldl (fun acc k => pairAdd acc k s) ps = ps ++ ks.map (fun k => (k, [s])) := by
  intro ks
  induction ks with
  | nil => intro ps _ _; simp
  | cons k ks ih =>
      intro ps habs hnd
      obtain ⟨hk, hks⟩ := List.nodup_cons.mp hnd
      rw [List.foldl_cons,
        pairAdd_absent k s ps (fun e he hek => habs k (List.mem_cons_self _ _) e he hek),
        ih (ps ++ [(k, [s])]) ?_ hks]
      · simp
      · intro k2 hk2 e he
        rcases List.mem_append.mp he with h | h
        · exact habs k2 (List.mem_cons_of_mem _ hk2) e h
        · rcases List.mem_singleton.mp h with rfl
          intro hkk
          exact hk ((show k = k2 from hkk) ▸ hk2)

theorem ijPairs_left_mem :
    ∀ dots : List Nat, ∀ p ∈ ijPairs dots, p.1 ∈ dots := by
  intro dots
  induction dots with
  | nil => intro p hp; exact absurd hp (List.not_mem_nil p)
  | cons d rest ih =>
      intro p hp
      rw [ijPairs] at hp
      rcases List.mem_append.mp hp with h | h
      · obtain ⟨e, _, rfl⟩ := List.mem_map.mp h
        exact List.mem_cons_self _ _
      · exact List.mem_cons_of_mem _ (ih p h)

theorem ijPairs_lt_of_sorted :
    ∀ dots : List Nat, List.Sorted (· < ·) dots → ∀ p ∈ ijPairs dots, p.1 < p.2 := by
  intro dots
  induction dots with
  | nil => intro _ p hp; exact absurd hp (List.not_mem_nil p)
  | cons d rest ih =>
      intro hs p hp
      rw [ijPairs] at hp
      rcases List.mem_append.mp hp with h | h
      · obtain ⟨e, he, rfl⟩ := List.mem_map.mp h
        exact (List.sorted_cons.mp hs).1 e he
      · exact ih (List.sorted_cons.mp hs).2 p h

theorem ijPairs_nodup :
    ∀ dots : List Nat, List.Sorted (· < ·) dots → (ijPairs dots).Nodup := by
  intro dots
  induction dots with
  | nil => intro _; simp [ijPairs]
  | cons d rest ih =>
      intro hs
      obtain ⟨hlt, hrest⟩ := List.sorted_cons.mp hs
      rw [ijPairs, List.nodup_append]
      refine ⟨?_, ih hrest, ?_⟩
      · refine List.Nodup.map (fun a b hab => ?_) hrest.nodup
        exact congrArg Prod.snd hab
      · intro p hp hp2
        obtain ⟨e, he, rfl⟩ := List.mem_map.mp hp
        have hmem : d ∈ rest := ijPairs_left_mem rest (d, e) hp2
        exact absurd (hlt d hmem) (lt_irrefl d)

theorem pairKey_of_lt (a b : Nat) (h : a < b) : pairKey a b = (a, b) := by
  rw [pairKey, min_eq_left h.le, max_eq_right h.le]

theorem map_pairKey_ijPairs (dots : List Nat) (hs : List.Sorted (· < ·) dots) :
    (ijPairs dots).map (fun ij => pairKey ij.1 ij.2) = ijPairs dots := by
  have hcong : ∀ p ∈ ijPairs dots, pairKey p.1 p.2 = p := by
    intro p hp
    have hlt := ijPairs_lt_of_sorted dots hs p hp
    rw [pairKey_of_lt _ _ hlt]
  calc (ijPairs dots).map (fun ij => pairKey ij.1 ij.2)
      = (ijPairs dots).map id := List.map_congr_left hcong
    _ = ijPairs dots := List.map_id _

theorem addGroupPairs_nil_sorted (s : String) (dots : List Nat)
    (hs : List.Sorted (· < ·) dots) :
    addGroupPairs [] s dots = (ijPairs dots).map (fun ij => (ij, [s])) := by
  rw [addGroupPairs]
  have hfold : (ijPairs dots).foldl (fun acc ij => pairAdd acc (pairKey ij.1 ij.2) s)
        ([] : List ((Nat × Nat) × List String))
      = ((ijPairs dots).map fun ij => pairKey ij.1 ij.2).foldl
          (fun acc k => pairAdd acc k s) [] := by
    rw [List.foldl_map]
  rw [hfold, map_pairKey_ijPairs dots hs,
    foldl_pairAdd_nodup s _ [] (by intro k _ e he; exact absurd he (List.not_mem_nil e))
      (ijPairs_nodup dots hs)]
  simp

theorem ijPairs_countP_head (d : Nat) (rest : List Nat)
    (hs : List.Sorted (· < ·) (d :: rest)) :
    ((ijPairs (d :: rest)).countP fun p => decide (p.1 = d)) = rest.length := by
  rw [ijPairs, List.countP_append]
  have h1 : ((rest.map fun e => (d, e)).countP fun p => decide (p.1 = d))
      = rest.length := by
    rw [List.countP_map]
    simp [Function.comp]
  have h2 : ((ijPairs rest).countP fun p => decide (p.1 = d)) = 0 := by
    rw [List.countP_eq_zero]
    intro p hp hpe
    have hmem := ijPairs_left_mem rest p hp
    have hd := (List.sorted_cons.mp hs).1 p.1 hmem
    rw [of_decide_eq_true hpe] at hd
    exact lt_irrefl d hd
  omega

/-- 61 distinct carriers all registered to one shared phone number:
one `by_phone` group of size 61. -/
def phoneFloodCarriers : List PrincipalRow :=
  (List.range 61).map fun i =>
    { dot_number := i + 1, phone := some "5551234", email := none, address_hash := none,
      physical_state := none }

def seq61 : List Nat := (List.range 61).map (· + 1)

def tail61 : List Nat := (List.range 60).map (· + 2)

theorem phoneFlood_phoneGroups : phoneGroups phoneFloodCarriers = [("5551234", seq61)] := by
  rfl

theorem seq61_cons : seq61 = 1 :: tail61 := by rfl

theorem seq61_sorted : List.Sorted (· < ·) seq61 := by decide

theorem strongPairSignals_phoneFlood :
    strongPairSignals phoneFloodCarriers [] "X"
      = (ijPairs seq61).map (fun ij => (ij, ["phone"])) := by
  rw [strongPairSignals, phoneFlood_phoneGroups]
  rw [show emailGroups phoneFloodCarriers = [] from rfl]
  rw [show addressGroups phoneFloodCarriers = [] from rfl]
  rw [show coGroups [] "X" = [] from rfl]
  simp only [List.foldl_cons, List.foldl_nil]
  exact addGroupPairs_nil_sorted "phone" seq61 seq61_sorted

theorem allPairSignals_phoneFlood :
    allPairSignals phoneFloodCarriers [] "X"
      = (ijPairs seq61).map (fun ij => (ij, ["phone"])) := by
  rw [allPairSignals]
  rw [show stateGroups phoneFloodCarriers = [] from rfl]
  simp only [List.foldl_nil]
  exact strongPairSignals_phoneFlood

/-- C5 counterexample.  On a single phone grouping of 61 carriers,
`find_links` pairs carrier 1 with 60 partners: pair generation inside
one grouping is full and uncapped, exceeding any cap of about 50
partners per group member. -/
theorem findLinks_uncapped_counterexample :
    ((findLinks phoneFloodCarriers [] "X").countP fun t => decide (t.1 = 1)) = 60
    ∧ 50 < ((findLinks phoneFloodCarriers [] "X").countP fun t => decide (t.1 = 1)) := by
  have hcount :
      ((findLinks phoneFloodCarriers [] "X").countP fun t => decide (t.1 = 1)) = 60 := by
    rw [findLinks, allPairSignals_phoneFlood, List.countP_map, List.countP_map]
    have hhead := ijPairs_countP_head 1 tail61 (seq61_cons ▸ seq61_sorted)
    rw [seq61_cons]
    have hlen : tail61.length = 60 := by rfl
    rw [← hlen]
    exact hhead
  exact ⟨hcount, by omega⟩

/-!  ## Chameleon pair detector (`detect_chameleons.py`)

Dates are modelled as day serials (`daysFromCivil`), so SQL `DATE`
subtraction is integer subtraction.  Each SQL statement of
`detect_chameleon_pairs` becomes one pure pass over the
`chameleon_pairs` table state. -/

/-- Day serial of a proleptic-Gregorian CE date (days since 0000-03-01,
Hinnant's civil-days algorithm); only differences are used. -/
def daysFromCivil (y m d : Nat) : Nat :=
  let y2 := if m ≤ 2 then y - 1 else y
  let era := y2 / 400
  let yoe := y2 - era * 400
  let mp := if m > 2 then m - 3 else m + 9
  let doy := (153 * mp + 2) / 5 + d - 1
  let doe := yoe * 365 + yoe / 4 - yoe / 100 + doy
  era * 146097 + doe

/-- `carriers` columns read by the chameleon detector.  `dot_number` is
the table's primary key. -/
structure CarrierRow where
  dot : Nat
  address_hash : Option String
  operating_status : Option String
  operating_status_code : Option String
  authority_grant_date : Option Int
  phone : Option String
deriving DecidableEq, Repr

structure ChamDB where
  carriers : List CarrierRow
  principals : List (Nat × String)
deriving DecidableEq, Repr

/-- One `chameleon_pairs` row. -/
structure PairRow where
  pred : Nat
  succ : Nat
  deactivation_date : Int
  activation_date : Int
  days_gap : Int
  match_signals : List String
  signal_count : Nat
  confidence : String
deriving DecidableEq, Repr

/-- `operating_status ILIKE 'AUTHORIZED%'`; NULL fails the predicate. -/
def isAuthorized (status : Option String) : Bool :=
  match status with
  | some s => listStartsWith (s.data.map Char.toUpper) "AUTHORIZED".data
  | none => false

/-- `operating_status_code != 'A'` under SQL three-valued logic: a NULL
code makes the comparison unknown, which the WHERE clause drops. -/
def statusCodeNotA (code : Option String) : Bool :=
  match code with
  | some s => s ≠ "A"
  | none => false

/-- Dates part of both seed passes' WHERE: both authority dates present,
successor's strictly later, gap at most `MAX_GAP_DAYS = 365`. -/
def datesEligible (pred succ : CarrierRow) : Bool :=
  match pred.authority_grant_date, succ.authority_grant_date with
  | some dp, some da => decide (da > dp) && decide (da - dp ≤ 365)
  | _, _ => false

/-- `pred.address_hash = succ.address_hash` join condition (NULL never
equals anything; `pred.address_hash IS NOT NULL` is subsumed). -/
def sharedAddress (pred succ : CarrierRow) : Bool :=
  match pred.address_hash, succ.address_hash with
  | some h1, some h2 => h1 == h2
  | _, _ => false

def mkPairRow (p s : Nat) (dp da : Int) (signal : String) : PairRow :=
  { pred := p, succ := s, deactivation_date := dp, activation_date := da,
    days_gap := da - dp, match_signals := [signal], signal_count := 1, confidence := "low" }

/-- Step 1 SELECT: address-based seed candidates. -/
def addrSeedRows (db : ChamDB) : List PairRow :=
  db.carriers.flatMap fun pred =>
    db.carriers.filterMap fun succ =>
      if sharedAddress pred succ && pred.dot != succ.dot
          && statusCodeNotA pred.operating_status_code
          && isAuthorized succ.operating_status && datesEligible pred succ then
        match pred.authority_grant_date, succ.authority_grant_date with
        | some dp, some da => some (mkPairRow pred.dot succ.dot dp da "address")
        | _, _ => none
      else none

/-- Step 2 CTE `officer_pairs`: DISTINCT dot pairs sharing a normalized
officer name whose carrier rows meet the eligibility conditions. -/
def officerPairsCTE (db : ChamDB) : List (Nat × Nat) :=
  dedupFirst
    (db.principals.flatMap fun p1 =>
      db.principals.filterMap fun p2 =>
        if p1.2 == p2.2 && p1.1 != p2.1
            && db.carriers.any (fun pred =>
              pred.dot == p1.1 &&
                db.carriers.any (fun succ =>
                  succ.dot == p2.1 && statusCodeNotA pred.operating_status_code
                    && isAuthorized succ.operating_status && datesEligible pred succ)) then
          some (p1.1, p2.1)
        else none)

/-- Step 2 outer SELECT: re-join the CTE pairs to `carriers` to project
the dates (`dot_number` being the primary key, the joined rows are the
ones the CTE already vetted). -/
def officerSeedRows (db : ChamDB) : List PairRow :=
  (officerPairsCTE db).flatMap fun ps =>
    (db.carriers.filter fun c => c.dot == ps.1).flatMap fun pred =>
      (db.carriers.filter fun c => c.dot == ps.2).filterMap fun succ =>
        match pred.authority_grant_date, succ.authority_grant_date with
        | some dp, some da => some (mkPairRow ps.1 ps.2 dp da "officer")
        | _, _ => none

/-- Sequential insert honouring the `(predecessor, successor)` primary
key: `NOT EXISTS` / `ON CONFLICT DO NOTHING` make a duplicate-keyed row
a no-op. -/
def insertPairs (table : List PairRow) (rows : List PairRow) : List PairRow :=
  rows.foldl
    (fun t r => if t.any (fun x => x.pred == r.pred && x.succ == r.succ) then t else t ++ [r])
    table

/-- Step 3 CTE `officer_links`: DISTINCT dot pairs sharing an officer
name, with no eligibility filter. -/
def officerLinks (db : ChamDB) : List (Nat × Nat) :=
  dedupFirst
    (db.principals.flatMap fun p1 =>
      db.principals.filterMap fun p2 =>
        if p1.2 == p2.2 && p1.1 != p2.1 then some (p1.1, p2.1) else none)

/-- Step 3 UPDATE: append `officer` to matching rows lacking it. -/
def mergeOfficerSignal (links : List (Nat × Nat)) (table : List PairRow) : List PairRow :=
  table.map fun r =>
    if links.any (fun l => l.1 == r.pred && l.2 == r.succ)
        && !(r.match_signals.contains "officer") then
      { r with match_signals := r.match_signals ++ ["officer"],
               signal_count := r.signal_count + 1 }
    else r

/-- Step 4 join condition: predecessor has a non-empty phone equal to
the successor's. -/
def phonesMatch (db : ChamDB) (r : PairRow) : Bool :=
  db.carriers.any fun pc =>
    pc.dot == r.pred &&
      (match pc.phone with
       | some p => p ≠ "" && db.carriers.any (fun sc => sc.dot == r.succ && sc.phone == some p)
       | none => false)

/-- Step 4 UPDATE: append `phone` to matching rows lacking it. -/
def mergePhoneSignal (db : ChamDB) (table : List PairRow) : List PairRow :=
  table.map fun r =>
    if phonesMatch db r && !(r.match_signals.contains "phone") then
      { r with match_signals := r.match_signals ++ ["phone"],
               signal_count := r.signal_count + 1 }
    else r

/-- Step 5 confidence CASE: `high` for 3+ signals, `medium` for 2,
else `low`. -/
def chamConfidence (signalCount : Nat) : String :=
  if signalCount ≥ 3 then "high" else if signalCount ≥ 2 then "medium" else "low"

def setConfidence (table : List PairRow) : List PairRow :=
  table.map fun r => { r with confidence := chamConfidence r.signal_count }

/-- `detect_chameleon_pairs`: truncate, seed by address, seed by
officer, merge officer and phone signals, recompute confidence. -/
def detectChameleonPairs (db : ChamDB) : List PairRow :=
  setConfidence
    (mergePhoneSignal db
      (mergeOfficerSignal (officerLinks db)
        (insertPairs (insertPairs [] (addrSeedRows db)) (officerSeedRows db))))

/-- The engine-owned carrier state touched by flag application. -/
structure RiskCarrier where
  dot : Nat
  risk_score : Option Int
  risk_flags : Option (List String)
deriving DecidableEq, Repr

def coalScore (c : RiskCarrier) : Int := c.risk_score.getD 0

def coalFlags (c : RiskCarrier) : List String := c.risk_flags.getD []

/-- One flag-application UPDATE guarded by
`NOT (flag = ANY(COALESCE(risk_flags, '\x7b\x7d')))`. -/
def flagCarrierList (dots : List Nat) (flag : String) (pts : Int) (cs : List RiskCarrier) :
    List RiskCarrier :=
  cs.map fun c =>
    if dots.contains c.dot && !((coalFlags c).contains flag) then
      { c with risk_score := some (coalScore c + pts),
               risk_flags := some (coalFlags c ++ [flag]) }
    else c

/-- `apply_chameleon_risk_flags`: flag successors (+30) then
predecessors (+20) of medium/high pairs, each at most once. -/
def applyChameleonRiskFlags (pairs : List PairRow) (cs : List RiskCarrier) :
    List RiskCarrier :=
  let medHigh := pairs.filter fun r => r.confidence == "medium" || r.confidence == "high"
  flagCarrierList (dedupFirst (medHigh.map (·.pred))) "CHAMELEON_PREDECESSOR" 20
    (flagCarrierList (dedupFirst (medHigh.map (·.succ))) "CHAMELEON_SUCCESSOR" 30 cs)

/-!  ## The concrete chameleon scenario (C6) -/

/-- Carrier A: deactivated, address hash `H1`, authority date
2020-01-01. -/
def chamCarrierA (ph : Option String) : CarrierRow :=
  { dot := 1, address_hash := some "H1", operating_status := some "INACTIVE",
    operating_status_code := some "I",
    authority_grant_date := some (daysFromCivil 2020 1 1 : Int), phone := ph }

/-- Carrier B: authorized, address hash `H1`, authority date
2020-06-01. -/
def chamCarrierB (ph : Option String) : CarrierRow :=
  { dot := 2, address_hash := some "H1", operating_status := some "AUTHORIZED FOR Property",
    operating_status_code := some "A",
    authority_grant_date := some (daysFromCivil 2020 6 1 : Int), phone := ph }

def chamDB1 : ChamDB := { carriers := [chamCarrierA none, chamCarrierB none], principals := [] }

def chamDB2 : ChamDB :=
  { carriers := [chamCarrierA none, chamCarrierB none],
    principals := [(1, "JANE DOE"), (2, "JANE DOE")] }

def chamDB3 : ChamDB :=
  { carriers := [chamCarrierA (some "5551234567"), chamCarrierB (some "5551234567")],
    principals := [(1, "JANE DOE"), (2, "JANE DOE")] }

def chamStartCarriers : List RiskCarrier :=
  [{ dot := 1, risk_score := some 0, risk_flags := some [] },
   { dot := 2, risk_score := some 0, risk_flags := some [] }]

/-- C6.  The scenario fixture: address alone gives the (A,B) pair with
days_gap 152 at `low`; a shared officer upgrades it to
`{address, officer}`/`medium`; an identical non-empty phone to
`{address, officer, phone}`/`high`, whereupon the flag pass gives B
`CHAMELEON_SUCCESSOR` (+30) and A `CHAMELEON_PREDECESSOR` (+20), and a
repeated flag pass changes nothing (each flag applied at most once). -/
theorem chameleon_scenario :
    detectChameleonPairs chamDB1
      = [{ pred := 1, succ := 2, deactivation_date := (daysFromCivil 2020 1 1 : Int),
           activation_date := (daysFromCivil 2020 6 1 : Int), days_gap := 152,
           match_signals := ["address"], signal_count := 1, confidence := "low" }]
    ∧ detectChameleonPairs chamDB2
      = [{ pred := 1, succ := 2, deactivation_date := (daysFromCivil 2020 1 1 : Int),
           activation_date := (daysFromCivil 2020 6 1 : Int), days_gap := 152,
           match_signals := ["address", "officer"], signal_count := 2,
           confidence := "medium" }]
    ∧ detectChameleonPairs chamDB3
      = [{ pred := 1, succ := 2, deactivation_date := (daysFromCivil 2020 1 1 : Int),
           activation_date := (daysFromCivil 2020 6 1 : Int), days_gap := 152,
           match_signals := ["address", "officer", "phone"], signal_count := 3,
           confidence := "high" }]
    ∧ applyChameleonRiskFlags (detectChameleonPairs chamDB3) chamStartCarriers
      = [{ dot := 1, risk_score := some 20, risk_flags := some ["CHAMELEON_PREDECESSOR"] },
         { dot := 2, risk_score := some 30, risk_flags := some ["CHAMELEON_SUCCESSOR"] }]
    ∧ applyChameleonRiskFlags (detectChameleonPairs chamDB3)
        (applyChameleonRiskFlags (detectChameleonPairs chamDB3) chamStartCarriers)
      = applyChameleonRiskFlags (detectChameleonPairs chamDB3) chamStartCarriers := by
  refine ⟨?_, ?_, ?_, ?_, ?_⟩ <;> decide

/-!  ## Chameleon table invariants (C7, C10) -/

/-- Row-wise effect of one signal-merge pass: location and dates are
untouched; the row is either unchanged or gets exactly one previously
absent signal appended, its count incremented. -/
def mergeStep (r r2 : PairRow) : Prop :=
  r2.pred = r.pred ∧ r2.succ = r.succ
  ∧ r2.deactivation_date = r.deactivation_date
  ∧ r2.activation_date = r.activation_date
  ∧ r2.days_gap = r.days_gap
  ∧ (r2 = r ∨ ∃ s, r2.match_signals = r.match_signals ++ [s] ∧ s ∉ r.match_signals
      ∧ r2.signal_count = r.signal_count + 1)

theorem forall₂_map_self {α : Type} (R : α → α → Prop) (f : α → α) (l : List α)
    (h : ∀ x ∈ l, R x (f x)) : List.Forall₂ R l (l.map f) := by
  induction l with
  | nil => exact List.Forall₂.nil
  | cons x xs ih =>
      exact List.Forall₂.cons (h x (List.mem_cons_self _ _))
        (ih fun y hy => h y (List.mem_cons_of_mem _ hy))

theorem mergeOfficerSignal_forall₂ (links : List (Nat × Nat)) (t : List PairRow) :
    List.Forall₂ mergeStep t (mergeOfficerSignal links t) := by
  rw [mergeOfficerSignal]
  refine forall₂_map_self _ _ _ (fun r _ => ?_)
  dsimp only
  split
  · rename_i hcond
    refine ⟨rfl, rfl, rfl, rfl, rfl, Or.inr ⟨"officer", rfl, ?_, rfl⟩⟩
    have hb := (Bool.and_eq_true _ _).mp hcond |>.2
    simp only [Bool.not_eq_eq_eq_not, Bool.not_true] at hb
    simp only [List.elem_eq_mem, decide_eq_false_iff_not] at hb
    exact hb
  · exact ⟨rfl, rfl, rfl, rfl, rfl, Or.inl rfl⟩

theorem mergePhoneSignal_forall₂ (db : ChamDB) (t : List PairRow) :
    List.Forall₂ mergeStep t (mergePhoneSignal db t) := by
  rw [mergePhoneSignal]
  refine forall₂_map_self _ _ _ (fun r _ => ?_)
  dsimp only
  split
  · rename_i hcond
    refine ⟨rfl, rfl, rfl, rfl, rfl, Or.inr ⟨"phone", rfl, ?_, rfl⟩⟩
    have hb := (Bool.and_eq_true _ _).mp hcond |>.2
    simp only [Bool.not_eq_eq_eq_not, Bool.not_true] at hb
    simp only [List.elem_eq_mem, decide_eq_false_iff_not] at hb
    exact hb
  · exact ⟨rfl, rfl, rfl, rfl, rfl, Or.inl rfl⟩

theorem mergeOfficerSignal_keys (links : List (Nat × Nat)) (t : List PairRow) :
    (mergeOfficerSignal links t).map (fun r => (r.pred, r.succ))
      = t.map (fun r => (r.pred, r.succ)) := by
  rw [mergeOfficerSignal, List.map_map]
  refine List.map_congr_left fun r _ => ?_
  dsimp only [Function.comp]
  split <;> rfl

theorem mergePhoneSignal_keys (db : ChamDB) (t : List PairRow) :
    (mergePhoneSignal db t).map (fun r => (r.pred, r.succ))
      = t.map (fun r => (r.pred, r.succ)) := by
  rw [mergePhoneSignal, List.map_map]
  refine List.map_congr_left fun r _ => ?_
  dsimp only [Function.comp]
  split <;> rfl

theorem setConfidence_keys (t : List PairRow) :
    (setConfidence t).map (fun r => (r.pred, r.succ))
      = t.map (fun r => (r.pred, r.succ)) := by
  rw [setConfidence, List.map_map]
  exact List.map_congr_left fun r _ => rfl

theorem insertPairs_keys_nodup (rows : List PairRow) :
    ∀ t : List PairRow, (t.map fun r => (r.pred, r.succ)).Nodup →
      ((insertPairs t rows).map fun r => (r.pred, r.succ)).Nodup := by
  induction rows with
  | nil => intro t h; exact h
  | cons r rs ih =>
      intro t h
      rw [insertPairs, List.foldl_cons]
      by_cases hp : (t.any fun x => x.pred == r.pred && x.succ == r.succ) = true
      · rw [if_pos hp]
        exact ih t h
      · rw [if_neg hp]
        refine ih _ ?_
        rw [List.map_append, List.map_singleton]
        rw [List.nodup_append]
        refine ⟨h, List.nodup_singleton _, fun k hk hk2 => ?_⟩
        rcases List.mem_singleton.mp hk2 with rfl
        obtain ⟨x, hx, hxk⟩ := List.mem_map.mp hk
        refine hp (List.any_eq_true.mpr ⟨x, hx, ?_⟩)
        have h1 : x.pred = r.pred := congrArg Prod.fst hxk
        have h2 : x.succ = r.succ := congrArg Prod.snd hxk
        simp [h1, h2]

theorem mem_insertPairs (rows : List PairRow) :
    ∀ t : List PairRow, ∀ r ∈ insertPairs t rows, r ∈ t ∨ r ∈ rows := by
  induction rows with
  | nil => intro t r h; exact Or.inl h
  | cons r0 rs ih =>
      intro t r h
      rw [insertPairs, List.foldl_cons] at h
      by_cases hp : (t.any fun x => x.pred == r0.pred && x.succ == r0.succ) = true
      · rw [if_pos hp] at h
        rcases ih t r h with h1 | h2
        · exact Or.inl h1
        · exact Or.inr (List.mem_cons_of_mem _ h2)
      · rw [if_neg hp] at h
        rcases ih _ r h with h1 | h2
        · rcases List.mem_append.mp h1 with h3 | h3
          · exact Or.inl h3
          · rcases List.mem_singleton.mp h3 with rfl
            exact Or.inr (List.mem_cons_self _ _)
        · exact Or.inr (List.mem_cons_of_mem _ h2)

/-- The date conditions every stored pair row satisfies. -/
def rowDatesOK (r : PairRow) : Prop :=
  r.deactivation_date < r.activation_date ∧ r.days_gap ≤ 365
  ∧ r.days_gap = r.activation_date - r.deactivation_date

theorem datesEligible_inv (pred succ : CarrierRow) (dp da : Int)
    (hp : pred.authority_grant_date = some dp) (hs : succ.authority_grant_date = some da)
    (h : datesEligible pred succ = true) : dp < da ∧ da - dp ≤ 365 := by
  rw [datesEligible, hp, hs] at h
  obtain ⟨h1, h2⟩ := (Bool.and_eq_true _ _).mp h
  exact ⟨of_decide_eq_true h1, of_decide_eq_true h2⟩

theorem addrSeedRows_datesOK (db : ChamDB) :
    ∀ r ∈ addrSeedRows db, rowDatesOK r := by
  intro r hr
  rw [addrSeedRows] at hr
  obtain ⟨pred, _, hr2⟩ := List.mem_flatMap.mp hr
  obtain ⟨succ, _, hf⟩ := List.mem_filterMap.mp hr2
  split at hf
  · rename_i hcond
    split at hf
    · rename_i dp da hp hs
      injection hf with hf
      subst hf
      have helig := ((Bool.and_eq_true _ _).mp hcond).2
      have hdates := datesEligible_inv pred succ dp da hp hs helig
      refine ⟨by simpa [mkPairRow] using hdates.1, by simpa [mkPairRow] using hdates.2, rfl⟩
    · exact absurd hf (by simp)
  · exact absurd hf (by simp)

theorem officerPairsCTE_inv (db : ChamDB) (ps : Nat × Nat) (hps : ps ∈ officerPairsCTE db) :
    ∃ pred ∈ db.carriers, pred.dot = ps.1 ∧
      ∃ succ ∈ db.carriers, succ.dot = ps.2
        ∧ statusCodeNotA pred.operating_status_code = true
        ∧ isAuthorized succ.operating_status = true
        ∧ datesEligible pred succ = true := by
  rw [officerPairsCTE, mem_dedupFirst] at hps
  obtain ⟨p1, _, hp2⟩ := List.mem_flatMap.mp hps
  obtain ⟨p2, _, hf⟩ := List.mem_filterMap.mp hp2
  split at hf
  · rename_i hcond
    injection hf with hf
    simp only [Bool.and_eq_true, beq_iff_eq, bne_iff_ne, List.any_eq_true] at hcond
    obtain ⟨⟨-, -⟩, pred, hpred, hdot1, succ, hsucc, ⟨⟨hdot2, hnotA⟩, hauth⟩, helig⟩ := hcond
    subst hf
    exact ⟨pred, hpred, hdot1, succ, hsucc, hdot2, hnotA, hauth, helig⟩
  · exact absurd hf (by simp)

theorem datesEligible_some (pred succ : CarrierRow) (h : datesEligible pred succ = true) :
    ∃ dp da, pred.authority_grant_date = some dp ∧ succ.authority_grant_date = some da := by
  rw [datesEligible] at h
  rcases hp : pred.authority_grant_date with _ | dp
  · rw [hp] at h; cases h
  · rcases hs : succ.authority_grant_date with _ | da
    · rw [hp, hs] at h; cases h
    · exact ⟨dp, da, rfl, rfl⟩

theorem officerSeedRows_datesOK (db : ChamDB)
    (hnd : (db.carriers.map (·.dot)).Nodup) :
    ∀ r ∈ officerSeedRows db, rowDatesOK r := by
  intro r hr
  rw [officerSeedRows] at hr
  obtain ⟨ps, hps, hr2⟩ := List.mem_flatMap.mp hr
  obtain ⟨pred, hpred, hr3⟩ := List.mem_flatMap.mp hr2
  obtain ⟨succ, hsucc, hf⟩ := List.mem_filterMap.mp hr3
  obtain ⟨hpredm, hpredd⟩ := List.mem_filter.mp hpred
  obtain ⟨hsuccm, hsuccd⟩ := List.mem_filter.mp hsucc
  obtain ⟨pred0, hpred0, hdot0, succ0, hsucc0, hdot0s, _, _, helig⟩ :=
    officerPairsCTE_inv db ps hps
  have hpeq : pred = pred0 := by
    refine List.inj_on_of_nodup_map hnd hpredm hpred0 ?_
    have h1 : pred.dot = ps.1 := by simpa using hpredd
    rw [h1, hdot0]
  have hseq : succ = succ0 := by
    refine List.inj_on_of_nodup_map hnd hsuccm hsucc0 ?_
    have h1 : succ.dot = ps.2 := by simpa using hsuccd
    rw [h1, hdot0s]
  subst hpeq hseq
  obtain ⟨dp, da, hdp, hda⟩ := datesEligible_some pred succ helig
  rw [hdp, hda] at hf
  injection hf with hf
  subst hf
  have hdates := datesEligible_inv pred succ dp da hdp hda helig
  exact ⟨by simpa [mkPairRow] using hdates.1, by simpa [mkPairRow] using hdates.2, rfl⟩

theorem forall₂_mem_right {α β : Type} {R : α → β → Prop} :
    ∀ {l1 : List α} {l2 : List β}, List.Forall₂ R l1 l2 → ∀ y ∈ l2, ∃ x ∈ l1, R x y := by
  intro l1 l2 h
  induction h with
  | nil => intro y hy; exact absurd hy (List.not_mem_nil y)
  | cons hR _ ih =>
      intro y hy
      rcases List.mem_cons.mp hy with rfl | hy2
      · exact ⟨_, List.mem_cons_self _ _, hR⟩
      · obtain ⟨x, hx, hRx⟩ := ih y hy2
        exact ⟨x, List.mem_cons_of_mem _ hx, hRx⟩

theorem setConfidence_mem (t : List PairRow) (r2 : PairRow) (h : r2 ∈ setConfidence t) :
    ∃ r ∈ t, r2.pred = r.pred ∧ r2.succ = r.succ
      ∧ r2.deactivation_date = r.deactivation_date
      ∧ r2.activation_date = r.activation_date ∧ r2.days_gap = r.days_gap := by
  rw [setConfidence] at h
  obtain ⟨r, hr, rfl⟩ := List.mem_map.mp h
  exact ⟨r, hr, rfl, rfl, rfl, rfl, rfl⟩

/-- C7.  After a detector run: (1) `(predecessor, successor)` is a key —
no two rows share it; (2) every row's activation date is strictly after
its deactivation date, with the stored gap equal to their difference
and at most 365; (3) the officer-merge and phone-merge passes map each
row in place, never inserting or deleting rows, and only ever append
one absent signal while incrementing `signal_count`. -/
theorem chameleon_table_invariants (db : ChamDB)
    (hnd : (db.carriers.map (·.dot)).Nodup) :
    (((detectChameleonPairs db).map fun r => (r.pred, r.succ)).Nodup
      ∧ ∀ r ∈ detectChameleonPairs db, rowDatesOK r)
    ∧ (∀ (links : List (Nat × Nat)) (t : List PairRow),
        List.Forall₂ mergeStep t (mergeOfficerSignal links t))
    ∧ (∀ t : List PairRow, List.Forall₂ mergeStep t (mergePhoneSignal db t)) := by
  refine ⟨⟨?_, ?_⟩, mergeOfficerSignal_forall₂, mergePhoneSignal_forall₂ db⟩
  · rw [detectChameleonPairs, setConfidence_keys, mergePhoneSignal_keys,
      mergeOfficerSignal_keys]
    refine insertPairs_keys_nodup _ _ (insertPairs_keys_nodup _ _ ?_)
    simp
  · intro r hr
    rw [detectChameleonPairs] at hr
    obtain ⟨r3, hr3, hkeep⟩ := setConfidence_mem _ r hr
    obtain ⟨r2, hr2, hstep2⟩ := forall₂_mem_right (mergePhoneSignal_forall₂ db _) r3 hr3
    obtain ⟨r1, hr1, hstep1⟩ :=
      forall₂_mem_right (mergeOfficerSignal_forall₂ (officerLinks db) _) r2 hr2
    have hbase : rowDatesOK r1 := by
      rcases mem_insertPairs _ _ r1 hr1 with h1 | h1
      · rcases mem_insertPairs _ _ r1 h1 with h2 | h2
        · exact absurd h2 (List.not_mem_nil r1)
        · exact addrSeedRows_datesOK db r1 h2
      · exact officerSeedRows_datesOK db hnd r1 h1
    obtain ⟨-, -, hd2, ha2, hg2, -⟩ := hstep2
    obtain ⟨-, -, hd1, ha1, hg1, -⟩ := hstep1
    obtain ⟨-, -, hd3, ha3, hg3⟩ := hkeep
    refine ⟨?_, ?_, ?_⟩
    · rw [hd3, ha3, hd2, ha2, hd1, ha1]; exact hbase.1
    · rw [hg3, hg2, hg1]; exact hbase.2.1
    · rw [hg3, hg2, hg1, hd3, ha3, hd2, ha2, hd1, ha1]; exact hbase.2.2

theorem chameleon_table_invariants_witness :
    (((detectChameleonPairs chamDB3).map fun r => (r.pred, r.succ)).Nodup
      ∧ ∀ r ∈ detectChameleonPairs chamDB3, rowDatesOK r) :=
  (chameleon_table_invariants chamDB3 (by decide)).1

/-- The predecessor of a stored pair resolves to a carrier row whose
status code is known (non-NULL) and different from `A`. -/
def predKnownInactive (db : ChamDB) (r : PairRow) : Prop :=
  ∃ c ∈ db.carriers, c.dot = r.pred ∧ ∃ s, c.operating_status_code = some s ∧ s ≠ "A"

theorem statusCodeNotA_inv (code : Option String) (h : statusCodeNotA code = true) :
    ∃ s, code = some s ∧ s ≠ "A" := by
  rcases code with _ | s
  · exact absurd h (by simp [statusCodeNotA])
  · simp only [statusCodeNotA] at h
    exact ⟨s, rfl, of_decide_eq_true h⟩

theorem addrSeedRows_pred (db : ChamDB) :
    ∀ r ∈ addrSeedRows db, predKnownInactive db r := by
  intro r hr
  rw [addrSeedRows] at hr
  obtain ⟨pred, hpredm, hr2⟩ := List.mem_flatMap.mp hr
  obtain ⟨succ, _, hf⟩ := List.mem_filterMap.mp hr2
  split at hf
  · rename_i hcond
    split at hf
    · injection hf with hf
      subst hf
      simp only [Bool.and_eq_true] at hcond
      obtain ⟨⟨⟨⟨-, -⟩, hnotA⟩, -⟩, -⟩ := hcond
      obtain ⟨s, hcode, hsA⟩ := statusCodeNotA_inv _ hnotA
      exact ⟨pred, hpredm, rfl, s, hcode, hsA⟩
    · exact absurd hf (by simp)
  · exact absurd hf (by simp)

theorem officerSeedRows_pred (db : ChamDB) :
    ∀ r ∈ officerSeedRows db, predKnownInactive db r := by
  intro r hr
  rw [officerSeedRows] at hr
  obtain ⟨ps, hps, hr2⟩ := List.mem_flatMap.mp hr
  obtain ⟨pred, _, hr3⟩ := List.mem_flatMap.mp hr2
  obtain ⟨succ, _, hf⟩ := List.mem_filterMap.mp hr3
  obtain ⟨pred0, hpred0, hdot0, _, _, _, hnotA, -, -⟩ := officerPairsCTE_inv db ps hps
  split at hf
  · injection hf with hf
    subst hf
    obtain ⟨s, hcode, hsA⟩ := statusCodeNotA_inv _ hnotA
    exact ⟨pred0, hpred0, hdot0, s, hcode, hsA⟩
  · exact absurd hf (by simp)

/-- C10.  A carrier whose `operating_status_code` is NULL is never the
predecessor of any detected pair: the SQL filter
`operating_status_code != 'A'` is unknown on NULL and drops the row, so
every stored pair's predecessor has a known status code other than A. -/
theorem chameleon_pred_known_status (db : ChamDB) :
    ∀ r ∈ detectChameleonPairs db, predKnownInactive db r := by
  intro r hr
  rw [detectChameleonPairs] at hr
  obtain ⟨r3, hr3, hk⟩ := setConfidence_mem _ r hr
  obtain ⟨r2, hr2, hstep2⟩ := forall₂_mem_right (mergePhoneSignal_forall₂ db _) r3 hr3
  obtain ⟨r1, hr1, hstep1⟩ :=
    forall₂_mem_right (mergeOfficerSignal_forall₂ (officerLinks db) _) r2 hr2
  have hbase : predKnownInactive db r1 := by
    rcases mem_insertPairs _ _ r1 hr1 with h1 | h1
    · rcases mem_insertPairs _ _ r1 h1 with h2 | h2
      · exact absurd h2 (List.not_mem_nil r1)
      · exact addrSeedRows_pred db r1 h2
    · exact officerSeedRows_pred db r1 h1
  obtain ⟨c, hc, hcd, hs⟩ := hbase
  refine ⟨c, hc, ?_, hs⟩
  rw [hk.1, hstep2.1, hstep1.1, hcd]

theorem chameleon_pred_known_status_witness :
    predKnownInactive chamDB3
      { pred := 1, succ := 2, deactivation_date := (daysFromCivil 2020 1 1 : Int),
        activation_date := (daysFromCivil 2020 6 1 : Int), days_gap := 152,
        match_signals := ["address", "officer", "phone"], signal_count := 3,
        confidence := "high" } :=
  chameleon_pred_known_status chamDB3 _ (by decide)

/-!  ## Confidence tiers (C8)

`chamConfidence` is detect_chameleons step 5; `ringConfidence` is the
CASE expression of `save_rings` in `detect_fraud_rings.py`, evaluated
over the aggregated ring stats. -/

/-- `CASE WHEN carrier_count >= 10 AND total_fatalities > 0 THEN high
WHEN carrier_count >= 5 OR total_crashes > 5 THEN medium ELSE low`. -/
def ringConfidence (carrierCount totalCrashes totalFatalities : Int) : String :=
  if carrierCount ≥ 10 ∧ totalFatalities > 0 then "high"
  else if carrierCount ≥ 5 ∨ totalCrashes > 5 then "medium"
  else "low"

/-- The tier order `low < medium < high` as a numeric rank. -/
def confidenceRank (c : String) : Nat :=
  if c = "high" then 2 else if c = "medium" then 1 else 0

theorem chamConfidence_rank (sc : Nat) :
    confidenceRank (chamConfidence sc)
      = if sc ≥ 3 then 2 else if sc ≥ 2 then 1 else 0 := by
  rw [chamConfidence]
  split_ifs <;> rfl

theorem ringConfidence_rank (n c f : Int) :
    confidenceRank (ringConfidence n c f)
      = if n ≥ 10 ∧ f > 0 then 2 else if n ≥ 5 ∨ c > 5 then 1 else 0 := by
  rw [ringConfidence]
  split_ifs <;> rfl

/-- C8.  Confidence tiers are monotone: a chameleon pair's confidence
rank is non-decreasing in its signal count, and a fraud ring's
confidence rank — crashes and fatalities held fixed — is non-decreasing
in its member carrier count. -/
theorem confidence_monotone :
    (∀ sc1 sc2 : Nat, sc1 ≤ sc2 →
      confidenceRank (chamConfidence sc1) ≤ confidenceRank (chamConfidence sc2))
    ∧ ∀ (n1 n2 crashes fatalities : Int), n1 ≤ n2 →
      confidenceRank (ringConfidence n1 crashes fatalities)
        ≤ confidenceRank (ringConfidence n2 crashes fatalities) := by
  constructor
  · intro sc1 sc2 h
    rw [chamConfidence_rank, chamConfidence_rank]
    split_ifs <;> omega
  · intro n1 n2 crashes fatalities h
    rw [ringConfidence_rank, ringConfidence_rank]
    split_ifs <;> omega

theorem confidence_monotone_witness :
    confidenceRank (chamConfidence 1) ≤ confidenceRank (chamConfidence 3)
    ∧ confidenceRank (ringConfidence 3 0 1) ≤ confidenceRank (ringConfidence 12 0 1) :=
  ⟨confidence_monotone.1 1 3 (by omega), confidence_monotone.2 3 12 0 1 (by omega)⟩

/-!  ## Risk ledger engine (`apply_risk_flags.py`)

Each rule is one guarded UPDATE: a static candidate condition over the
carrier's non-engine attributes and the auxiliary tables, a set of
excluding flags (`NOT (f = ANY(COALESCE(risk_flags,...)))`), a point
value and the flag appended.  The batched `LIMIT`-loop applies the rule
to every candidate before the next rule starts, and a row's candidacy
never depends on another row's score/flags, so one rule is one `map`
over the carrier list.  `vehicle_oos_rate`-style float columns are
modelled as exact rationals. -/

/-- The carrier attributes rules read but never write. -/
structure CarrierStatic where
  dot : Nat
  address_hash : Option String
  physical_country : Option String
  mailing_country : Option String
  operating_status : Option String
  operating_status_code : Option String
  authority_grant_date : Option Int
  fatal_crashes : Int
  total_crashes : Int
  vehicle_oos_rate : Option Rat
  driver_oos_rate : Option Rat
  total_inspections : Int
  eld_violations : Int
  ppp_loan_total : Rat
  ppp_loan_count : Int
  ppp_forgiven_total : Rat
  physical_address : Option String
deriving DecidableEq, Repr

/-- A carrier row: static attributes plus the engine-owned nullable
`risk_score`/`risk_flags` columns. -/
structure FlagCarrier where
  static : CarrierStatic
  risk_score : Option Int
  risk_flags : Option (List String)
deriving DecidableEq, Repr

structure ClusterRow where
  officer_name : String
  member_dot_numbers : List Nat
  carrier_count : Int
deriving DecidableEq, Repr

structure AuthHistoryRow where
  dot : Nat
  common_rev_pend : Option String
  contract_rev_pend : Option String
  broker_rev_pend : Option String
deriving DecidableEq, Repr

structure InsuranceRow where
  dot : Nat
  effective_date : Option Int
  cancl_effective_date : Option Int
deriving DecidableEq, Repr

/-- The auxiliary data a run reads: `address_clusters`,
`officer_network_clusters` (absent table = `none`),
`carrier_principals`, `authority_history`, `insurance_history`, the
feature-detection bit for `inspection_violations`, `CURRENT_DATE` and
`CURRENT_DATE - INTERVAL '1 year'` as day serials. -/
structure FlagDB where
  address_clusters : List (String × Int)
  officer_network_clusters : Option (List ClusterRow)
  carrier_principals : List (Nat × String)
  authority_history : List AuthHistoryRow
  insurance_history : List InsuranceRow
  inspection_violations_present : Bool
  current_date : Int
  year_ago : Int
deriving DecidableEq, Repr

/-- `has_table(...) and has_rows(...)` feature detection. -/
def hasClusters (db : FlagDB) : Bool :=
  match db.officer_network_clusters with
  | some rows => !rows.isEmpty
  | none => false

def clusterRows (db : FlagDB) : List ClusterRow := db.officer_network_clusters.getD []

def fcScore (c : FlagCarrier) : Int := c.risk_score.getD 0

def fcFlags (c : FlagCarrier) : List String := c.risk_flags.getD []

/-- `JOIN address_clusters ac ON c.address_hash = ac.address_hash WHERE
ac.carrier_count >= k` (NULL hash joins nothing). -/
def inAddrCluster (db : FlagDB) (c : CarrierStatic) (k : Int) : Bool :=
  match c.address_hash with
  | some h => db.address_clusters.any fun ac => ac.1 == h && ac.2 ≥ k
  | none => false

/-- `country IS NOT NULL AND country != '' AND country != 'US'`. -/
def isForeign (country : Option String) : Bool :=
  match country with
  | some s => s ≠ "" && s ≠ "US"
  | none => false

/-- `country = 'US' OR country IS NULL OR country = ''`. -/
def isDomestic (country : Option String) : Bool :=
  match country with
  | some s => s == "US" || s == ""
  | none => true

/-- `COUNT(DISTINCT dot_number)` of principals under one name. -/
def distinctDotCount (db : FlagDB) (name : String) : Nat :=
  (dedupFirst (db.carrier_principals.filterMap fun p =>
    if p.2 == name then some p.1 else none)).length

/-- `%needle%` substring test on character lists (ILIKE with uppercased
hay). -/
def listContainsSeq (needle : List Char) : List Char → Bool
  | [] => needle.isEmpty
  | c :: rest => listStartsWith (c :: rest) needle || listContainsSeq needle rest

/-- The PO-box ILIKE pattern list of rule 8a. -/
def poBoxLike (s : String) : Bool :=
  let u := s.data.map Char.toUpper
  listContainsSeq "P.O.".data u || listContainsSeq "P O BOX".data u
    || listContainsSeq "PO BOX".data u || listContainsSeq "POB ".data u
    || listContainsSeq "P.O BOX".data u || listStartsWith u "BOX ".data

/-- SQL `TRIM` (strips spaces). -/
def trimSpaces (l : List Char) : List Char :=
  ((l.dropWhile (· == ' ')).reverse.dropWhile (· == ' ')).reverse

/-- One scoring rule: flag, points, excluding flags, and the static
candidate condition over the carrier and (for linked-carrier rules) the
full carrier list. -/
structure Rule where
  flag : String
  pts : Int
  guards : List String
  cond : FlagDB → List CarrierStatic → CarrierStatic → Bool

def addrTierFlags : List String :=
  ["ADDRESS_OVERLAP_25+", "ADDRESS_OVERLAP_10+", "ADDRESS_OVERLAP_5+"]

def officerTierFlags : List String :=
  ["OFFICER_25_PLUS", "OFFICER_10_PLUS", "OFFICER_5_PLUS"]

/-- 1a: the 25+ tier excludes only carriers already holding it. -/
def ruleAddr25 : Rule :=
  { flag := "ADDRESS_OVERLAP_25+", pts := 50, guards := ["ADDRESS_OVERLAP_25+"],
    cond := fun db _ c => inAddrCluster db c 25 }

/-- 1b: excludes the 25+ and 10+ flags. -/
def ruleAddr10 : Rule :=
  { flag := "ADDRESS_OVERLAP_10+", pts := 35,
    guards := ["ADDRESS_OVERLAP_25+", "ADDRESS_OVERLAP_10+"],
    cond := fun db _ c => inAddrCluster db c 10 }

/-- 1c: excludes all three address tiers. -/
def ruleAddr5 : Rule :=
  { flag := "ADDRESS_OVERLAP_5+", pts := 20, guards := addrTierFlags,
    cond := fun db _ c => inAddrCluster db c 5 }

def officerClusterCond (k : Int) : FlagDB → List CarrierStatic → CarrierStatic → Bool :=
  fun db _ c => (clusterRows db).any fun row =>
    row.carrier_count ≥ k && row.member_dot_numbers.contains c.dot

def officerRawCond (k : Nat) : FlagDB → List CarrierStatic → CarrierStatic → Bool :=
  fun db _ c => db.carrier_principals.any fun p =>
    p.1 == c.dot && distinctDotCount db p.2 ≥ k

/-- 2a-2c, identity-cluster branch: each officer tier excludes all
three officer flags. -/
def ruleOfficer25C : Rule :=
  { flag := "OFFICER_25_PLUS", pts := 50, guards := officerTierFlags,
    cond := officerClusterCond 25 }

def ruleOfficer10C : Rule :=
  { flag := "OFFICER_10_PLUS", pts := 35, guards := officerTierFlags,
    cond := officerClusterCond 10 }

def ruleOfficer5C : Rule :=
  { flag := "OFFICER_5_PLUS", pts := 20, guards := officerTierFlags,
    cond := officerClusterCond 5 }

/-- 2a-2c, raw-name fallback branch. -/
def ruleOfficer25R : Rule :=
  { flag := "OFFICER_25_PLUS", pts := 50, guards := officerTierFlags,
    cond := officerRawCond 25 }

def ruleOfficer10R : Rule :=
  { flag := "OFFICER_10_PLUS", pts := 35, guards := officerTierFlags,
    cond := officerRawCond 10 }

def ruleOfficer5R : Rule :=
  { flag := "OFFICER_5_PLUS", pts := 20, guards := officerTierFlags,
    cond := officerRawCond 5 }

def ruleForeignCarrier : Rule :=
  { flag := "FOREIGN_CARRIER", pts := 45, guards := ["FOREIGN_CARRIER"],
    cond := fun _ _ c => isForeign c.physical_country }

def ruleForeignMailing : Rule :=
  { flag := "FOREIGN_MAILING", pts := 30, guards := ["FOREIGN_MAILING", "FOREIGN_CARRIER"],
    cond := fun _ _ c => isDomestic c.physical_country && isForeign c.mailing_country }

def ruleForeignLinkedAddress : Rule :=
  { flag := "FOREIGN_LINKED_ADDRESS", pts := 35,
    guards := ["FOREIGN_LINKED_ADDRESS", "FOREIGN_CARRIER"],
    cond := fun _ statics c =>
      isDomestic c.physical_country &&
        match c.address_hash with
        | some h => statics.any fun o => isForeign o.physical_country && o.address_hash == some h
        | none => false }

/-- 3d, cluster branch: a cluster containing a foreign member links its
domestic members. -/
def ruleForeignLinkedOfficerC : Rule :=
  { flag := "FOREIGN_LINKED_OFFICER", pts := 35,
    guards := ["FOREIGN_LINKED_OFFICER", "FOREIGN_CARRIER"],
    cond := fun db statics c =>
      isDomestic c.physical_country &&
        (clusterRows db).any fun row =>
          row.member_dot_numbers.contains c.dot &&
            row.member_dot_numbers.any fun d =>
              statics.any fun o => o.dot == d && isForeign o.physical_country }

/-- 3d, raw-name fallback. -/
def ruleForeignLinkedOfficerR : Rule :=
  { flag := "FOREIGN_LINKED_OFFICER", pts := 35,
    guards := ["FOREIGN_LINKED_OFFICER", "FOREIGN_CARRIER"],
    cond := fun db statics c =>
      isDomestic c.physical_country &&
        db.carrier_principals.any fun p =>
          p.1 == c.dot &&
            db.carrier_principals.any fun q =>
              q.2 == p.2 && statics.any fun o => o.dot == q.1 && isForeign o.physical_country }

def ruleAuthRevoked : Rule :=
  { flag := "AUTHORITY_REVOKED_REISSUED", pts := 15,
    guards := ["AUTHORITY_REVOKED_REISSUED"],
    cond := fun db _ c => db.authority_history.any fun ah =>
      ah.dot == c.dot && (ah.common_rev_pend == some "Y" || ah.contract_rev_pend == some "Y"
        || ah.broker_rev_pend == some "Y") }

/-- 4b: `authority_grant_date > CURRENT_DATE - INTERVAL '1 year'`. -/
def ruleNewAuthority : Rule :=
  { flag := "NEW_AUTHORITY", pts := 15, guards := ["NEW_AUTHORITY"],
    cond := fun db _ c =>
      match c.authority_grant_date with
      | some d => decide (d > db.year_ago)
      | none => false }

def ruleFatalCrashes : Rule :=
  { flag := "FATAL_CRASHES", pts := 25, guards := ["FATAL_CRASHES"],
    cond := fun _ _ c => c.fatal_crashes > 0 }

def ruleHighCrashCount : Rule :=
  { flag := "HIGH_CRASH_COUNT", pts := 15, guards := ["HIGH_CRASH_COUNT"],
    cond := fun _ _ c => c.total_crashes ≥ 3 && c.fatal_crashes == 0 }

def ruleHighVehicleOos : Rule :=
  { flag := "HIGH_VEHICLE_OOS", pts := 20, guards := ["HIGH_VEHICLE_OOS"],
    cond := fun _ _ c =>
      (match c.vehicle_oos_rate with
       | some r => decide (r > 30)
       | none => false) && c.total_inspections > 0 }

def ruleHighDriverOos : Rule :=
  { flag := "HIGH_DRIVER_OOS", pts := 15, guards := ["HIGH_DRIVER_OOS"],
    cond := fun _ _ c =>
      (match c.driver_oos_rate with
       | some r => decide (r > 20)
       | none => false) && c.total_inspections > 0 }

/-- 5e (only when violation detail data is present):
`eld_violations / total_inspections > 0.3` for inspected carriers, or
15+ violations with fewer than 3 inspections. -/
def ruleHighEld : Rule :=
  { flag := "HIGH_ELD_VIOLATION_RATE", pts := 25, guards := ["HIGH_ELD_VIOLATION_RATE"],
    cond := fun _ _ c =>
      (c.total_inspections ≥ 3
          && decide ((c.eld_violations : Rat) / (c.total_inspections : Rat) > 3 / 10))
        || (c.eld_violations ≥ 15 && c.total_inspections < 3) }

def ruleInsuranceLapse : Rule :=
  { flag := "INSURANCE_LAPSE", pts := 20, guards := ["INSURANCE_LAPSE"],
    cond := fun db _ c =>
      isAuthorized c.operating_status
        && !(db.insurance_history.any fun ih =>
          ih.dot == c.dot
            && (match ih.effective_date with
                | some e => decide (e ≤ db.current_date)
                | none => false)
            && (match ih.cancl_effective_date with
                | some cd => decide (cd > db.current_date)
                | none => true))
        && db.insurance_history.any fun ih => ih.dot == c.dot }

def ruleLargePpp : Rule :=
  { flag := "LARGE_PPP_LOAN", pts := 20, guards := ["LARGE_PPP_LOAN"],
    cond := fun _ _ c => c.ppp_loan_total > 100000 }

def rulePppLoan : Rule :=
  { flag := "PPP_LOAN", pts := 10, guards := ["LARGE_PPP_LOAN", "PPP_LOAN"],
    cond := fun _ _ c => c.ppp_loan_count > 0 }

def rulePppForgiven : Rule :=
  { flag := "PPP_FORGIVEN_CLUSTER", pts := 15, guards := ["PPP_FORGIVEN_CLUSTER"],
    cond := fun db _ c => c.ppp_forgiven_total > 0 && inAddrCluster db c 3 }

def rulePoBox : Rule :=
  { flag := "PO_BOX_ADDRESS", pts := 15, guards := ["PO_BOX_ADDRESS"],
    cond := fun _ _ c =>
      match c.physical_address with
      | some s => poBoxLike s
      | none => false }

def ruleNoPhysicalAddress : Rule :=
  { flag := "NO_PHYSICAL_ADDRESS", pts := 10, guards := ["NO_PHYSICAL_ADDRESS"],
    cond := fun _ _ c =>
      match c.physical_address with
      | some s => trimSpaces s.data == []
      | none => true }

def ruleInactiveStatus : Rule :=
  { flag := "INACTIVE_STATUS", pts := 10, guards := ["INACTIVE_STATUS"],
    cond := fun db _ c => c.operating_status_code == some "I" && inAddrCluster db c 3 }

/-- The rules after the three address tiers, in source order, with the
cluster/raw and violations feature branches. -/
def ruleSeqTail (db : FlagDB) : List Rule :=
  (if hasClusters db then [ruleOfficer25C, ruleOfficer10C, ruleOfficer5C]
   else [ruleOfficer25R, ruleOfficer10R, ruleOfficer5R])
  ++ [ruleForeignCarrier, ruleForeignMailing, ruleForeignLinkedAddress]
  ++ (if hasClusters db then [ruleForeignLinkedOfficerC] else [ruleForeignLinkedOfficerR])
  ++ [ruleAuthRevoked, ruleNewAuthority, ruleFatalCrashes, ruleHighCrashCount,
      ruleHighVehicleOos, ruleHighDriverOos]
  ++ (if db.inspection_violations_present then [ruleHighEld] else [])
  ++ [ruleInsuranceLapse, ruleLargePpp, rulePppLoan, rulePppForgiven, rulePoBox,
      ruleNoPhysicalAddress, ruleInactiveStatus]

/-- The full ordered rule list of one `main()` run. -/
def ruleSeq (db : FlagDB) : List Rule :=
  [ruleAddr25, ruleAddr10, ruleAddr5] ++ ruleSeqTail db

/-- One rule applied to one carrier: candidate iff the static condition
holds and no excluding flag is present; the effect adds the points and
appends the flag (both through COALESCE). -/
def stepRule (db : FlagDB) (statics : List CarrierStatic) (r : Rule) (c : FlagCarrier) :
    FlagCarrier :=
  if r.cond db statics c.static && r.guards.all (fun g => !((fcFlags c).contains g)) then
    { c with risk_score := some (fcScore c + r.pts),
             risk_flags := some (fcFlags c ++ [r.flag]) }
  else c

/-- One rule's batched loop, run to exhaustion: every current candidate
row is updated. -/
def applyRule (db : FlagDB) (r : Rule) (s : List FlagCarrier) : List FlagCarrier :=
  s.map (stepRule db (s.map (·.static)) r)

def runRules (db : FlagDB) (s : List FlagCarrier) : List FlagCarrier :=
  (ruleSeq db).foldl (fun st r => applyRule db r st) s

/-- `reset_all_flags`: `UPDATE ... SET risk_score = 0, risk_flags =
empty WHERE risk_score != 0 OR (risk_flags IS NOT NULL AND
array_length(risk_flags, 1) > 0)`.  A NULL score fails `!= 0`; an empty
or NULL flag array fails the second disjunct. -/
def resetCarrier (c : FlagCarrier) : FlagCarrier :=
  if (match c.risk_score with
      | some v => v ≠ 0
      | none => false)
      || (match c.risk_flags with
          | some l => !l.isEmpty
          | none => false) then
    { c with risk_score := some 0, risk_flags := some [] }
  else c

/-- `main()`: optional reset, then the full rule sequence. -/
def runEngine (db : FlagDB) (reset : Bool) (s : List FlagCarrier) : List FlagCarrier :=
  runRules db (if reset then s.map resetCarrier else s)

/-!  ## Engine lemmas: the per-carrier chain view -/

/-- The whole rule sequence folded over one carrier, statics fixed. -/
def chainRules (db : FlagDB) (statics : List CarrierStatic) (rs : List Rule)
    (c : FlagCarrier) : FlagCarrier :=
  rs.foldl (fun c r => stepRule db statics r c) c

theorem chainRules_cons (db : FlagDB) (st : List CarrierStatic) (r : Rule) (rs : List Rule)
    (c : FlagCarrier) :
    chainRules db st (r :: rs) c = chainRules db st rs (stepRule db st r c) := rfl

theorem chainRules_append (db : FlagDB) (st : List CarrierStatic) (l1 l2 : List Rule)
    (c : FlagCarrier) :
    chainRules db st (l1 ++ l2) c = chainRules db st l2 (chainRules db st l1 c) := by
  rw [chainRules, chainRules, chainRules, List.foldl_append]

theorem stepRule_static (db : FlagDB) (st : List CarrierStatic) (r : Rule) (c : FlagCarrier) :
    (stepRule db st r c).static = c.static := by
  rw [stepRule]; split <;> rfl

theorem chainRules_static (db : FlagDB) (st : List CarrierStatic) (rs : List Rule) :
    ∀ c, (chainRules db st rs c).static = c.static := by
  induction rs with
  | nil => intro c; rfl
  | cons r rs ih =>
      intro c
      rw [chainRules_cons, ih, stepRule_static]

theorem applyRule_statics (db : FlagDB) (r : Rule) (s : List FlagCarrier) :
    (applyRule db r s).map (·.static) = s.map (·.static) := by
  rw [applyRule, List.map_map]
  exact List.map_congr_left fun c _ => stepRule_static db _ r c

theorem foldl_applyRule_eq_map (db : FlagDB) :
    ∀ (rs : List Rule) (s : List FlagCarrier),
      rs.foldl (fun st r => applyRule db r st) s
        = s.map (chainRules db (s.map (·.static)) rs) := by
  intro rs
  induction rs with
  | nil =>
      intro s
      simp only [List.foldl_nil]
      have : ∀ c ∈ s, c = chainRules db (s.map (·.static)) [] c := fun c _ => rfl
      calc s = s.map id := (List.map_id s).symm
        _ = s.map (chainRules db (s.map (·.static)) []) :=
            List.map_congr_left fun c _ => rfl
  | cons r rs ih =>
      intro s
      rw [List.foldl_cons, ih (applyRule db r s), applyRule_statics, applyRule, List.map_map]
      rfl

theorem runRules_eq_map (db : FlagDB) (s : List FlagCarrier) :
    runRules db s = s.map (chainRules db (s.map (·.static)) (ruleSeq db)) :=
  foldl_applyRule_eq_map db (ruleSeq db) s

theorem fcFlags_stepRule_mono (db : FlagDB) (st : List CarrierStatic) (r : Rule)
    (c : FlagCarrier) (g : String) (h : g ∈ fcFlags c) : g ∈ fcFlags (stepRule db st r c) := by
  rw [stepRule]
  split
  · simpa [fcFlags] using Or.inl h
  · exact h

theorem fcFlags_chainRules_mono (db : FlagDB) (st : List CarrierStatic) (rs : List Rule) :
    ∀ (c : FlagCarrier) (g : String), g ∈ fcFlags c → g ∈ fcFlags (chainRules db st rs c) := by
  induction rs with
  | nil => intro c g h; exact h
  | cons r rs ih =>
      intro c g h
      rw [chainRules_cons]
      exact ih _ g (fcFlags_stepRule_mono db st r c g h)

theorem fcFlags_stepRule_inv (db : FlagDB) (st : List CarrierStatic) (r : Rule)
    (c : FlagCarrier) (g : String) (h : g ∈ fcFlags (stepRule db st r c)) :
    g ∈ fcFlags c ∨ g = r.flag := by
  rw [stepRule] at h
  split at h
  · simp only [fcFlags, Option.getD_some] at h
    rcases List.mem_append.mp h with h2 | h2
    · exact Or.inl h2
    · exact Or.inr (List.mem_singleton.mp h2)
  · exact Or.inl h

theorem stepRule_post (db : FlagDB) (st : List CarrierStatic) (r : Rule) (c : FlagCarrier)
    (hwf : r.flag ∈ r.guards) (hc : r.cond db st c.static = true) :
    ∃ g ∈ r.guards, g ∈ fcFlags (stepRule db st r c) := by
  by_cases hg : (r.guards.all fun g => !((fcFlags c).contains g)) = true
  · refine ⟨r.flag, hwf, ?_⟩
    rw [stepRule, if_pos (by rw [hc, hg]; rfl)]
    simp [fcFlags]
  · have hex : ∃ g ∈ r.guards, g ∈ fcFlags c := by
      by_contra hng
      push_neg at hng
      apply hg
      rw [List.all_eq_true]
      intro g hgm
      simp only [Bool.not_eq_eq_eq_not, Bool.not_true, List.elem_eq_mem,
        decide_eq_false_iff_not]
      exact hng g hgm
    obtain ⟨g, hgm, hgf⟩ := hex
    exact ⟨g, hgm, fcFlags_stepRule_mono db st r c g hgf⟩

theorem chainRules_post (db : FlagDB) (st : List CarrierStatic) :
    ∀ (rs : List Rule) (c : FlagCarrier), (∀ r ∈ rs, r.flag ∈ r.guards) →
      ∀ r ∈ rs, r.cond db st c.static = true →
        ∃ g ∈ r.guards, g ∈ fcFlags (chainRules db st rs c) := by
  intro rs
  induction rs with
  | nil => intro c _ r hr; exact absurd hr (List.not_mem_nil r)
  | cons r0 rs ih =>
      intro c hwf r hr hc
      rw [chainRules_cons]
      rcases List.mem_cons.mp hr with rfl | hr2
      · obtain ⟨g, hgm, hgf⟩ := stepRule_post db st r c (hwf r (List.mem_cons_self _ _)) hc
        exact ⟨g, hgm, fcFlags_chainRules_mono db st rs _ g hgf⟩
      · refine ih (stepRule db st r0 c) (fun r2 h2 => hwf r2 (List.mem_cons_of_mem _ h2))
          r hr2 ?_
        rw [stepRule_static]
        exact hc

theorem stepRule_fix (db : FlagDB) (st : List CarrierStatic) (r : Rule) (c : FlagCarrier)
    (h : r.cond db st c.static = false ∨ ∃ g ∈ r.guards, g ∈ fcFlags c) :
    stepRule db st r c = c := by
  rw [stepRule, if_neg]
  intro hcond
  obtain ⟨hc, hall⟩ := (Bool.and_eq_true _ _).mp hcond
  rcases h with h | ⟨g, hgm, hgf⟩
  · rw [h] at hc; exact Bool.false_ne_true hc
  · have := List.all_eq_true.mp hall g hgm
    simp only [Bool.not_eq_eq_eq_not, Bool.not_true, List.elem_eq_mem,
      decide_eq_false_iff_not] at this
    exact this hgf

theorem chainRules_fix (db : FlagDB) (st : List CarrierStatic) :
    ∀ (rs : List Rule) (c : FlagCarrier),
      (∀ r ∈ rs, r.cond db st c.static = true → ∃ g ∈ r.guards, g ∈ fcFlags c) →
      chainRules db st rs c = c := by
  intro rs
  induction rs with
  | nil => intro c _; rfl
  | cons r0 rs ih =>
      intro c h
      rw [chainRules_cons, stepRule_fix db st r0 c ?_]
      · exact ih c fun r hr => h r (List.mem_cons_of_mem _ hr)
      · by_cases hc : r0.cond db st c.static = true
        · exact Or.inr (h r0 (List.mem_cons_self _ _) hc)
        · exact Or.inl (Bool.eq_false_iff.mpr hc)

theorem forall_mem_iteList {α : Type} {p : Prop} [Decidable p] (l1 l2 : List α)
    (P : α → Prop) (h1 : ∀ x ∈ l1, P x) (h2 : ∀ x ∈ l2, P x) :
    ∀ x ∈ (if p then l1 else l2), P x := by
  split
  · exact h1
  · exact h2

theorem ruleSeqTail_wf (db : FlagDB) : ∀ r ∈ ruleSeqTail db, r.flag ∈ r.guards := by
  rw [ruleSeqTail]
  refine List.forall_mem_append.mpr ⟨List.forall_mem_append.mpr
    ⟨List.forall_mem_append.mpr ⟨List.forall_mem_append.mpr
      ⟨List.forall_mem_append.mpr ⟨?_, ?_⟩, ?_⟩, ?_⟩, ?_⟩, ?_⟩
  · exact forall_mem_iteList _ _ _ (by decide) (by decide)
  · decide
  · exact forall_mem_iteList _ _ _ (by decide) (by decide)
  · decide
  · exact forall_mem_iteList _ _ _ (by decide) (by decide)
  · decide

theorem ruleSeq_wf (db : FlagDB) : ∀ r ∈ ruleSeq db, r.flag ∈ r.guards := by
  rw [ruleSeq]
  exact List.forall_mem_append.mpr ⟨by decide, ruleSeqTail_wf db⟩

/-- C3.  Incremental idempotence: a second incremental run over the
same data changes nothing — after the first run, every rule either
finds its own flag already present or found a guard flag in the way,
so every candidate set is empty. -/
theorem runEngine_incremental_idempotent (db : FlagDB) (s : List FlagCarrier) :
    runEngine db false (runEngine db false s) = runEngine db false s := by
  show runRules db (runRules db s) = runRules db s
  have hstat : (runRules db s).map (·.static) = s.map (·.static) := by
    rw [runRules_eq_map, List.map_map]
    exact List.map_congr_left fun c _ => chainRules_static db _ (ruleSeq db) c
  rw [runRules_eq_map db (runRules db s), hstat, runRules_eq_map db s, List.map_map]
  refine List.map_congr_left fun c _ => ?_
  show chainRules db (s.map (·.static)) (ruleSeq db)
      (chainRules db (s.map (·.static)) (ruleSeq db) c)
    = chainRules db (s.map (·.static)) (ruleSeq db) c
  refine chainRules_fix db _ (ruleSeq db) _ fun r hr hc => ?_
  have hcond : r.cond db (s.map (·.static)) c.static = true := by
    rw [chainRules_static] at hc
    exact hc
  exact chainRules_post db (s.map (·.static)) (ruleSeq db) c (ruleSeq_wf db) r hr hcond

/-!  ## Tier groups (C1) -/

/-- How many flags of one mutually-exclusive tier group a carrier
holds. -/
def groupCount (G : List String) (c : FlagCarrier) : Nat :=
  ((fcFlags c).filter fun g => decide (g ∈ G)).length

theorem fcFlags_flagged (c : FlagCarrier) (sc : Int) (fl : String) :
    fcFlags { c with risk_score := some sc, risk_flags := some (fcFlags c ++ [fl]) }
      = fcFlags c ++ [fl] := rfl

theorem groupCount_stepRule_not_mem (db : FlagDB) (st : List CarrierStatic) (r : Rule)
    (c : FlagCarrier) (G : List String) (hf : r.flag ∉ G) :
    groupCount G (stepRule db st r c) = groupCount G c := by
  rw [stepRule]
  split
  · rw [groupCount, fcFlags_flagged, List.filter_append]
    have hnil : ([r.flag].filter fun g => decide (g ∈ G)) = [] := by
      simp [hf]
    rw [hnil, List.append_nil]
    rfl
  · rfl

theorem guards_clear_of_step_applied (c : FlagCarrier) (r : Rule)
    (hall : (r.guards.all fun g => !((fcFlags c).contains g)) = true) :
    ∀ g ∈ r.guards, g ∉ fcFlags c := by
  intro g hg
  have := List.all_eq_true.mp hall g hg
  simp only [Bool.not_eq_eq_eq_not, Bool.not_true, List.elem_eq_mem,
    decide_eq_false_iff_not] at this
  exact this

theorem groupCount_eq_zero_of_absent (c : FlagCarrier) (G : List String)
    (h : ∀ g ∈ G, g ∉ fcFlags c) : groupCount G c = 0 := by
  rw [groupCount, List.length_eq_zero, List.filter_eq_nil_iff]
  intro g hgf
  simp only [decide_eq_true_eq]
  intro hgG
  exact h g hgG hgf

theorem groupCount_stepRule_guarded (db : FlagDB) (st : List CarrierStatic) (r : Rule)
    (c : FlagCarrier) (G : List String) (hG : ∀ g ∈ G, g ∈ r.guards)
    (h : groupCount G c ≤ 1) : groupCount G (stepRule db st r c) ≤ 1 := by
  rw [stepRule]
  split
  · rename_i hcond
    have hall := ((Bool.and_eq_true _ _).mp hcond).2
    have habs : ∀ g ∈ G, g ∉ fcFlags c :=
      fun g hg => guards_clear_of_step_applied c r hall g (hG g hg)
    have hzero := groupCount_eq_zero_of_absent c G habs
    rw [groupCount, List.length_eq_zero] at hzero
    rw [groupCount, fcFlags_flagged, List.filter_append, hzero, List.nil_append]
    exact List.length_filter_le _ _
  · exact h

theorem groupCount_chainRules_le_one (db : FlagDB) (st : List CarrierStatic)
    (G : List String) :
    ∀ (rs : List Rule) (c : FlagCarrier),
      (∀ r ∈ rs, r.flag ∉ G ∨ ∀ g ∈ G, g ∈ r.guards) →
      groupCount G c ≤ 1 → groupCount G (chainRules db st rs c) ≤ 1 := by
  intro rs
  induction rs with
  | nil => intro c _ h; exact h
  | cons r rs ih =>
      intro c hok h
      rw [chainRules_cons]
      refine ih _ (fun r2 h2 => hok r2 (List.mem_cons_of_mem _ h2)) ?_
      rcases hok r (List.mem_cons_self _ _) with hnm | hg
      · rw [groupCount_stepRule_not_mem db st r c G hnm]; exact h
      · exact groupCount_stepRule_guarded db st r c G hg h

theorem fcFlags_resetCarrier (c : FlagCarrier) : fcFlags (resetCarrier c) = [] := by
  rw [resetCarrier]
  split
  · rfl
  · rename_i h
    rcases hf : c.risk_flags with _ | l
    · simp [fcFlags, hf]
    · rw [hf] at h
      rcases l with _ | ⟨x, xs⟩
      · simp [fcFlags, hf]
      · exfalso
        apply h
        simp

theorem groupCount_step_le_one_of_absent (db : FlagDB) (st : List CarrierStatic)
    (r : Rule) (c : FlagCarrier) (G : List String)
    (habs : ∀ g ∈ G, g ∉ fcFlags c) :
    groupCount G (stepRule db st r c) ≤ 1 := by
  have hzero := groupCount_eq_zero_of_absent c G habs
  rw [groupCount, List.length_eq_zero] at hzero
  rw [stepRule]
  split
  · rw [groupCount, fcFlags_flagged, List.filter_append, hzero, List.nil_append]
    exact List.length_filter_le _ _
  · rw [groupCount_eq_zero_of_absent c G habs]
    exact Nat.zero_le 1

theorem ruleSeqTail_no_addr (db : FlagDB) :
    ∀ r ∈ ruleSeqTail db, r.flag ∉ addrTierFlags := by
  rw [ruleSeqTail]
  refine List.forall_mem_append.mpr ⟨List.forall_mem_append.mpr
    ⟨List.forall_mem_append.mpr ⟨List.forall_mem_append.mpr
      ⟨List.forall_mem_append.mpr ⟨?_, ?_⟩, ?_⟩, ?_⟩, ?_⟩, ?_⟩
  · exact forall_mem_iteList _ _ _ (by decide) (by decide)
  · decide
  · exact forall_mem_iteList _ _ _ (by decide) (by decide)
  · decide
  · exact forall_mem_iteList _ _ _ (by decide) (by decide)
  · decide

theorem ruleSeq_officer_ok (db : FlagDB) :
    ∀ r ∈ ruleSeq db, r.flag ∉ officerTierFlags ∨ ∀ g ∈ officerTierFlags, g ∈ r.guards := by
  rw [ruleSeq, ruleSeqTail]
  refine List.forall_mem_append.mpr ⟨by decide, ?_⟩
  refine List.forall_mem_append.mpr ⟨List.forall_mem_append.mpr
    ⟨List.forall_mem_append.mpr ⟨List.forall_mem_append.mpr
      ⟨List.forall_mem_append.mpr ⟨?_, ?_⟩, ?_⟩, ?_⟩, ?_⟩, ?_⟩
  · exact forall_mem_iteList _ _ _ (by decide) (by decide)
  · decide
  · exact forall_mem_iteList _ _ _ (by decide) (by decide)
  · decide
  · exact forall_mem_iteList _ _ _ (by decide) (by decide)
  · decide

/-- From a carrier with no flags at all, the whole rule sequence leaves
at most one address-overlap tier flag: the 25+/10+/5+ passes run in
order with downward-excluding guards, and no later rule touches the
group. -/
theorem addr_group_from_clean (db : FlagDB) (st : List CarrierStatic) (c : FlagCarrier)
    (h0 : fcFlags c = []) :
    groupCount addrTierFlags (chainRules db st (ruleSeq db) c) ≤ 1 := by
  rw [ruleSeq, chainRules_append]
  refine groupCount_chainRules_le_one db st addrTierFlags (ruleSeqTail db) _
    (fun r hr => Or.inl (ruleSeqTail_no_addr db r hr)) ?_
  have hc3 : chainRules db st [ruleAddr25, ruleAddr10, ruleAddr5] c
      = stepRule db st ruleAddr5 (stepRule db st ruleAddr10 (stepRule db st ruleAddr25 c)) :=
    rfl
  rw [hc3]
  have hc1mem : ∀ g ∈ fcFlags (stepRule db st ruleAddr25 c),
      g = "ADDRESS_OVERLAP_25+" := by
    intro g hg
    rcases fcFlags_stepRule_inv db st ruleAddr25 c g hg with h | h
    · rw [h0] at h
      exact absurd h (List.not_mem_nil g)
    · exact h
  have hcount1 : groupCount addrTierFlags (stepRule db st ruleAddr25 c) ≤ 1 := by
    refine groupCount_step_le_one_of_absent db st ruleAddr25 c addrTierFlags ?_
    intro g _ hgf
    rw [h0] at hgf
    exact absurd hgf (List.not_mem_nil g)
  have hcount2 : groupCount addrTierFlags
      (stepRule db st ruleAddr10 (stepRule db st ruleAddr25 c)) ≤ 1 := by
    by_cases happ : (ruleAddr10.cond db st (stepRule db st ruleAddr25 c).static
        && ruleAddr10.guards.all
          fun g => !((fcFlags (stepRule db st ruleAddr25 c)).contains g)) = true
    · have hall := ((Bool.and_eq_true _ _).mp happ).2
      have h25 : "ADDRESS_OVERLAP_25+" ∉ fcFlags (stepRule db st ruleAddr25 c) :=
        guards_clear_of_step_applied _ ruleAddr10 hall "ADDRESS_OVERLAP_25+" (by decide)
      refine groupCount_step_le_one_of_absent db st ruleAddr10 _ addrTierFlags ?_
      intro g hg hgf
      have := hc1mem g hgf
      subst this
      rcases hg with hg
      exact h25 hgf
    · rw [show stepRule db st ruleAddr10 (stepRule db st ruleAddr25 c)
          = stepRule db st ruleAddr25 c by rw [stepRule, if_neg happ]]
      exact hcount1
  refine groupCount_stepRule_guarded db st ruleAddr5 _ addrTierFlags ?_ hcount2
  intro g hg
  exact hg

theorem resetCarrier_static (c : FlagCarrier) : (resetCarrier c).static = c.static := by
  rw [resetCarrier]
  split <;> rfl

/-- C1 (amended).  After a reset-mode run from any prior state, every
carrier holds at most one address-overlap tier flag and at most one
officer-identity tier flag.  In incremental mode the officer group's
exclusivity is preserved (each officer tier rule excludes all three
officer flags), but not established from arbitrary states; the address
group is only guaranteed from states without address flags, because the
25+ address rule checks solely its own flag. -/
theorem tier_exclusivity (db : FlagDB) (s : List FlagCarrier) :
    (∀ c ∈ runEngine db true s,
        groupCount addrTierFlags c ≤ 1 ∧ groupCount officerTierFlags c ≤ 1)
    ∧ ((∀ c ∈ s, groupCount officerTierFlags c ≤ 1) →
        ∀ c ∈ runEngine db false s, groupCount officerTierFlags c ≤ 1) := by
  constructor
  · intro c hc
    have hrun : runEngine db true s = (s.map resetCarrier).map
        (chainRules db ((s.map resetCarrier).map (·.static)) (ruleSeq db)) :=
      runRules_eq_map db (s.map resetCarrier)
    rw [hrun] at hc
    obtain ⟨c0, hc0, rfl⟩ := List.mem_map.mp hc
    obtain ⟨c00, _, rfl⟩ := List.mem_map.mp hc0
    have h0 : fcFlags (resetCarrier c00) = [] := fcFlags_resetCarrier c00
    constructor
    · exact addr_group_from_clean db _ (resetCarrier c00) h0
    · refine groupCount_chainRules_le_one db _ officerTierFlags (ruleSeq db)
        (resetCarrier c00) (ruleSeq_officer_ok db) ?_
      rw [groupCount_eq_zero_of_absent _ _ (fun g _ hgf => by
        rw [h0] at hgf; exact absurd hgf (List.not_mem_nil g))]
      exact Nat.zero_le 1
  · intro hpre c hc
    have hrun : runEngine db false s
        = s.map (chainRules db (s.map (·.static)) (ruleSeq db)) :=
      runRules_eq_map db s
    rw [hrun] at hc
    obtain ⟨c0, hc0, rfl⟩ := List.mem_map.mp hc
    exact groupCount_chainRules_le_one db _ officerTierFlags (ruleSeq db) c0
      (ruleSeq_officer_ok db) (hpre c0 hc0)

/-- An inert carrier matching no rule except the address-overlap ones. -/
def demoStatic : CarrierStatic :=
  { dot := 1, address_hash := some "H", physical_country := some "US",
    mailing_country := none, operating_status := none, operating_status_code := none,
    authority_grant_date := none, fatal_crashes := 0, total_crashes := 0,
    vehicle_oos_rate := none, driver_oos_rate := none, total_inspections := 0,
    eld_violations := 0, ppp_loan_total := 0, ppp_loan_count := 0,
    ppp_forgiven_total := 0, physical_address := some "123 MAIN ST" }

/-- An address cluster of 25 carriers at the carrier's hash; no other
auxiliary data. -/
def demoFlagDB : FlagDB :=
  { address_clusters := [("H", 25)], officer_network_clusters := none,
    carrier_principals := [], authority_history := [], insurance_history := [],
    inspection_violations_present := false, current_date := 0, year_ago := -365 }

/-- A prior state already holding the 5+ tier (e.g. from an earlier run
when the address housed only 5 carriers). -/
def demoTierState : List FlagCarrier :=
  [{ static := demoStatic, risk_score := some 20,
     risk_flags := some ["ADDRESS_OVERLAP_5+"] }]

set_option maxRecDepth 8000 in
/-- C1 counterexample.  An incremental run from a carrier already
holding `ADDRESS_OVERLAP_5+`, whose address cluster has since grown to
25, ends with the carrier holding both the 5+ and the 25+ address
flags: the 25+ rule excludes only its own flag. -/
theorem tier_exclusivity_counterexample :
    runEngine demoFlagDB false demoTierState
      = [{ static := demoStatic, risk_score := some 70,
           risk_flags := some ["ADDRESS_OVERLAP_5+", "ADDRESS_OVERLAP_25+"] }]
    ∧ 1 < groupCount addrTierFlags
        { static := demoStatic, risk_score := some 70,
          risk_flags := some ["ADDRESS_OVERLAP_5+", "ADDRESS_OVERLAP_25+"] } :=
  ⟨by decide, by decide⟩

set_option maxRecDepth 8000 in
theorem tier_exclusivity_witness :
    groupCount addrTierFlags
        { static := demoStatic, risk_score := some 50,
          risk_flags := some ["ADDRESS_OVERLAP_25+"] } ≤ 1
    ∧ groupCount officerTierFlags
        { static := demoStatic, risk_score := some 50,
          risk_flags := some ["ADDRESS_OVERLAP_25+"] } ≤ 1 :=
  (tier_exclusivity demoFlagDB demoTierState).1
    { static := demoStatic, risk_score := some 50,
      risk_flags := some ["ADDRESS_OVERLAP_25+"] } (by decide)

/-!  ## Reset determinism (C4)

The стored `risk_score`/`risk_flags` are nullable, and every rule (and
the reset) reads them through COALESCE; `observe` is the
COALESCE-normalised view the rules and the serving layer actually
consume. -/

/-- The carrier as the rules see it: statics, `COALESCE(risk_score, 0)`
and `COALESCE(risk_flags, empty)`. -/
def observe (c : FlagCarrier) : CarrierStatic × Int × List String :=
  (c.static, fcScore c, fcFlags c)

/-- `stepRule` factored through the observed view. -/
def stepObs (db : FlagDB) (st : List CarrierStatic) (r : Rule)
    (o : CarrierStatic × Int × List String) : CarrierStatic × Int × List String :=
  if r.cond db st o.1 && r.guards.all (fun g => !(o.2.2.contains g)) then
    (o.1, o.2.1 + r.pts, o.2.2 ++ [r.flag])
  else o

def chainObs (db : FlagDB) (st : List CarrierStatic) (rs : List Rule)
    (o : CarrierStatic × Int × List String) : CarrierStatic × Int × List String :=
  rs.foldl (fun o r => stepObs db st r o) o

theorem observe_stepRule (db : FlagDB) (st : List CarrierStatic) (r : Rule)
    (c : FlagCarrier) : observe (stepRule db st r c) = stepObs db st r (observe c) := by
  rw [stepRule, stepObs]
  simp only [observe, fcScore, fcFlags, Option.getD_some]
  split <;> rfl

theorem observe_chainRules (db : FlagDB) (st : List CarrierStatic) :
    ∀ (rs : List Rule) (c : FlagCarrier),
      observe (chainRules db st rs c) = chainObs db st rs (observe c) := by
  intro rs
  induction rs with
  | nil => intro c; rfl
  | cons r rs ih =>
      intro c
      rw [chainRules_cons, ih, observe_stepRule]
      rfl

theorem observe_resetCarrier (c : FlagCarrier) :
    observe (resetCarrier c) = (c.static, 0, []) := by
  rw [resetCarrier]
  split
  · rfl
  · rename_i h
    have h2 : ((match c.risk_score with
        | some v => decide (v ≠ 0)
        | none => false)
        || (match c.risk_flags with
            | some l => !l.isEmpty
            | none => false)) = false := Bool.eq_false_iff.mpr h
    obtain ⟨hsc, hfl⟩ := Bool.or_eq_false_iff.mp h2
    have hscore : fcScore c = 0 := by
      rcases hs : c.risk_score with _ | v
      · simp [fcScore, hs]
      · rw [hs] at hsc
        simp only [decide_eq_false_iff_not, not_not] at hsc
        simp [fcScore, hs, hsc]
    have hflags : fcFlags c = [] := by
      rcases hf : c.risk_flags with _ | l
      · simp [fcFlags, hf]
      · rw [hf] at hfl
        simp only [Bool.not_eq_eq_eq_not, Bool.not_false, List.isEmpty_iff] at hfl
        simp [fcFlags, hf, hfl]
    rw [observe, hscore, hflags]

/-- C4 (amended).  Two reset-mode runs over identical underlying data
(equal statics and auxiliary tables) from arbitrary prior score/flag
states agree on every carrier's COALESCE-normalised score and flag set.
(The stored values can differ: `reset_all_flags` leaves a NULL score
NULL, see the counterexample.) -/
theorem reset_determinism (db : FlagDB) (s1 s2 : List FlagCarrier)
    (hstatic : s1.map (·.static) = s2.map (·.static)) :
    (runEngine db true s1).map observe = (runEngine db true s2).map observe := by
  have hreset : ∀ s : List FlagCarrier,
      (s.map resetCarrier).map (·.static) = s.map (·.static) := by
    intro s
    rw [List.map_map]
    exact List.map_congr_left fun c _ => resetCarrier_static c
  have hside : ∀ s : List FlagCarrier,
      (runEngine db true s).map observe
        = (s.map (·.static)).map
            (fun t => chainObs db (s.map (·.static)) (ruleSeq db) (t, 0, [])) := by
    intro s
    show (runRules db (s.map resetCarrier)).map observe = _
    rw [runRules_eq_map, hreset, List.map_map, List.map_map, List.map_map]
    refine List.map_congr_left fun c _ => ?_
    show observe (chainRules db (s.map (·.static)) (ruleSeq db) (resetCarrier c))
      = chainObs db (s.map (·.static)) (ruleSeq db) (c.static, 0, [])
    rw [observe_chainRules, observe_resetCarrier]
  rw [hside s1, hside s2, hstatic]

/-- Empty auxiliary data: no rule fires on `demoStatic`. -/
def emptyFlagDB : FlagDB :=
  { address_clusters := [], officer_network_clusters := none,
    carrier_principals := [], authority_history := [], insurance_history := [],
    inspection_violations_present := false, current_date := 0, year_ago := -365 }

def nullScoreState : List FlagCarrier :=
  [{ static := demoStatic, risk_score := none, risk_flags := none }]

def zeroScoreState : List FlagCarrier :=
  [{ static := demoStatic, risk_score := some 0, risk_flags := some [] }]

set_option maxRecDepth 8000 in
/-- C4 counterexample.  Identical underlying data, prior states
differing only in NULL-vs-zero storage: the reset run leaves the NULL
carrier untouched (`risk_score != 0` is unknown on NULL), so the final
stored states differ — reset mode does not zero every carrier, and the
two runs do not end with identical stored `risk_score`. -/
theorem reset_determinism_counterexample :
    nullScoreState.map (·.static) = zeroScoreState.map (·.static)
    ∧ runEngine emptyFlagDB true nullScoreState = nullScoreState
    ∧ runEngine emptyFlagDB true nullScoreState
        ≠ runEngine emptyFlagDB true zeroScoreState :=
  ⟨by decide, by decide, by decide⟩

set_option maxRecDepth 8000 in
theorem reset_determinism_witness :
    (runEngine emptyFlagDB true nullScoreState).map observe
      = (runEngine emptyFlagDB true zeroScoreState).map observe :=
  reset_determinism emptyFlagDB nullScoreState zeroScoreState (by decide)

end CarrierWatch
